import Mathlib

/-!
TranslationApp (src/components/translator.jsx)

A shallow embedding of the React component `TranslationApp`: the component
state, the recognizer objects created by its effect, the debounce timer, the
outstanding translation calls, and every handler of the component as a
function on that state.

Modelling conventions.

* Every handler installed by the effect (lines 32-82) is a closure over the
  render in which the effect ran.  The values it can read (`isRecording`,
  and, through `translateText`, `isTranslating`, `sourceLanguage`,
  `targetLanguage`) are recorded per recognizer object in `Env`.
* The effect has dependencies `[sourceLanguage, isRecording]`: a handler that
  changes one of them is followed by the cleanup (lines 71-81) and by a fresh
  run of the effect body (lines 33-69); `commit` does that. A handler, the
  re-render it causes and the effect of that re-render are one step: they are
  over before the next event is handled.
* A recognizer object is `active` from a successful `start()` until it
  delivers its `end` event; only an active recognizer delivers events.
  `start()` on an active object throws, `stop()` never throws.
* Time is a natural number of milliseconds; `setTimeout(f, 500)` registers a
  timer due at `now + 500`, and `Event.advance d` lets `d` ms pass and runs
  the timers that came due.
* `log` is an append-only record of the observable calls (`start()` and
  `stop()` on recognizer objects, invocations of `translateText` by a timer,
  `fetch` calls).
-/

namespace TranslationApp

/-! ## JavaScript values and strings -/

/-- Code points removed by `String.prototype.trim`: ECMAScript WhiteSpace and
LineTerminator. -/
def isJsWhiteSpace (c : Char) : Bool :=
  let n := c.toNat
  n == 0x09 || n == 0x0A || n == 0x0B || n == 0x0C || n == 0x0D || n == 0x20 ||
  n == 0xA0 || n == 0x1680 || (0x2000 ≤ n && n ≤ 0x200A) || n == 0x2028 ||
  n == 0x2029 || n == 0x202F || n == 0x205F || n == 0x3000 || n == 0xFEFF

/-- The method `text.trim()`. -/
def jsTrim (text : String) : String :=
  String.mk ((text.data.dropWhile isJsWhiteSpace).reverse.dropWhile isJsWhiteSpace).reverse

/-- A text that is empty or consists only of whitespace. -/
def isBlank (text : String) : Bool :=
  text.data.all isJsWhiteSpace

/-- The method `Array.prototype.join(sep)` on an array of strings. -/
def arrayJoin (sep : String) : List String → String
  | [] => ""
  | [x] => x
  | x :: y :: rest => x ++ sep ++ arrayJoin sep (y :: rest)

/-- A JavaScript value as produced by `response.json()`, plus `undefined`.
Numbers are kept as integers: the code only tests them for truthiness. -/
inductive JsVal where
  | undefined : JsVal
  | null : JsVal
  | bool (b : Bool) : JsVal
  | num (n : Int) : JsVal
  | str (s : String) : JsVal
  | arr (items : List JsVal) : JsVal
  | obj (fields : List (String × JsVal)) : JsVal

/-- JavaScript truthiness (ToBoolean). -/
def JsVal.truthy : JsVal → Bool
  | .undefined => false
  | .null => false
  | .bool b => b
  | .num n => n != 0
  | .str s => s != ""
  | .arr _ => true
  | .obj _ => true

/-- The outcome of evaluating JavaScript that may throw. -/
inductive JsResult (α : Type) where
  | ok (v : α) : JsResult α
  | throw (msg : String) : JsResult α

/-- Property read `v.key` for a key that is not an array index. Reading a
property of `undefined` or `null` throws a TypeError. -/
def JsVal.getProp (v : JsVal) (key : String) : JsResult JsVal :=
  match v with
  | .undefined => .throw "TypeError"
  | .null => .throw "TypeError"
  | .bool _ => .ok .undefined
  | .num _ => .ok .undefined
  | .str s => if key == "length" then .ok (.num s.length) else .ok .undefined
  | .arr items => if key == "length" then .ok (.num items.length) else .ok .undefined
  | .obj fields =>
    match fields.lookup key with
    | some x => .ok x
    | none => .ok .undefined

/-- Indexed read `v[0]`. -/
def JsVal.getIndex0 (v : JsVal) : JsResult JsVal :=
  match v with
  | .undefined => .throw "TypeError"
  | .null => .throw "TypeError"
  | .bool _ => .ok .undefined
  | .num _ => .ok .undefined
  | .str s =>
    match s.data with
    | [] => .ok .undefined
    | c :: _ => .ok (.str (String.mk [c]))
  | .arr items =>
    match items with
    | [] => .ok .undefined
    | x :: _ => .ok x
  | .obj fields =>
    match fields.lookup "0" with
    | some x => .ok x
    | none => .ok .undefined

/-- Sequencing of evaluations that may throw. -/
def JsResult.andThen {α β : Type} (r : JsResult α) (f : α → JsResult β) : JsResult β :=
  match r with
  | .ok v => f v
  | .throw m => .throw m

/-! ## Component data -/

/-- The object `languageMapping` (lines 16-25). -/
def languageMapping (code : String) : Option String :=
  [("en-US", "English"), ("es-ES", "Spanish"), ("fr-FR", "French"), ("de-DE", "German"),
   ("it-IT", "Italian"), ("ja-JP", "Japanese"), ("hi-IN", "Hindi"), ("mr-IN", "Marathi")].lookup code

/-- The text written to `translatedText` by the catch block (line 123). -/
def errorPlaceholder : String := "Translation error occurred. Please try again."

/-- The debounce delay passed to `setTimeout` (line 51). -/
def debounceMs : Nat := 500

/-- What the closures installed by one run of the effect can read: the state
values of the render in which that effect ran. -/
structure Env where
  isRecording : Bool
  isTranslating : Bool
  sourceLanguage : String
  targetLanguage : String
deriving DecidableEq

/-- A `SpeechRecognition` object created by the effect. -/
structure Recognizer where
  env : Env
  continuous : Bool
  interimResults : Bool
  lang : Option String
  active : Bool
  stopRequested : Bool
deriving DecidableEq

/-- A timer registered by `setTimeout(() => translateText(transcript), 500)`. -/
structure Timer where
  id : Nat
  due : Nat
  env : Env
  text : String
deriving DecidableEq

/-- An outstanding `fetch` issued by `translateText`. -/
structure Request where
  id : Nat
  text : String
  sourceLang : Option String
  targetLang : Option String
deriving DecidableEq

/-- Observable calls, in the order they happen. -/
inductive Effect where
  | recStart (r : Nat) : Effect
  | recStop (r : Nat) : Effect
  | translateText (timer : Nat) (text : String) : Effect
  | fetch (req : Nat) (text : String) : Effect
deriving DecidableEq

/-- One alternative of a recognition result. -/
structure Alternative where
  transcript : String
deriving DecidableEq

/-- A `SpeechRecognitionResult`: it holds at least one alternative, `result[0]`. -/
structure SpeechRecognitionResult where
  isFinal : Bool
  first : Alternative
  others : List Alternative
deriving DecidableEq

/-- How a `fetch` followed by `response.json()` ends. -/
inductive FetchOutcome where
  | networkError : FetchOutcome
  | notJson : FetchOutcome
  | json (data : JsVal) : FetchOutcome

/-- The component state: React state, refs, and the environment objects the
handlers act on. -/
structure State where
  supported : Bool
  isRecording : Bool
  originalText : String
  translatedText : JsVal
  sourceLanguage : String
  targetLanguage : String
  isTranslating : Bool
  recognitionRef : Option Nat
  recordingTimeoutRef : Option Nat
  translationTimeoutRef : Option Nat
  recognizers : List Recognizer
  timers : List Timer
  nextTimer : Nat
  now : Nat
  requests : List Request
  nextRequest : Nat
  log : List Effect

/-! ## Recognizer and timer primitives -/

/-- The call `recognizer.start()` on object `k`: throws (`none`) when the
object is already started. The call is logged in `callStart`. -/
def Recognizer.start (r : Recognizer) : Option Recognizer :=
  if r.active then none else some { r with active := true, stopRequested := false }

/-- The call `recognizer.stop()`: ignored on an object that is not started. -/
def Recognizer.stop (r : Recognizer) : Recognizer :=
  if r.active then { r with stopRequested := true } else r

/-- Replace object `k` of the list by `f` of it; nothing happens when there is
no object `k`. -/
def updateAt {α : Type} (f : α → α) (k : Nat) (l : List α) : List α :=
  match l[k]? with
  | some x => l.set k (f x)
  | none => l

/-- The call `recognitionRef.current.start()` for `recognitionRef.current = k`;
the flag is `false` when the call throws. -/
def callStart (k : Nat) (s : State) : State × Bool :=
  let called := { s with log := s.log ++ [Effect.recStart k] }
  match s.recognizers[k]? with
  | none => (called, false)
  | some r =>
    match r.start with
    | none => (called, false)
    | some r1 => ({ called with recognizers := s.recognizers.set k r1 }, true)

/-- The call `recognitionRef.current.stop()` for `recognitionRef.current = k`. -/
def callStop (k : Nat) (s : State) : State :=
  { s with
    recognizers := updateAt Recognizer.stop k s.recognizers,
    log := s.log ++ [Effect.recStop k] }

/-- The call `clearTimeout(id)`. -/
def clearTimeout (id : Nat) (s : State) : State :=
  { s with timers := s.timers.filter (fun t => t.id != id) }

/-- The statement `if (ref.current) clearTimeout(ref.current)`; a timer handle is
a number, truthy unless it is 0. -/
def clearIfSet (ref : Option Nat) (s : State) : State :=
  match ref with
  | none => s
  | some id => if id != 0 then clearTimeout id s else s

/-! ## The effect (lines 32-82) -/

/-- The cleanup function returned by the effect (lines 71-81). -/
def cleanup (s : State) : State :=
  let s1 := match s.recognitionRef with
    | some k => callStop k s
    | none => s
  let s2 := clearIfSet s1.recordingTimeoutRef s1
  clearIfSet s2.translationTimeoutRef s2

/-- The object made by `new SpeechRecognition()` with the settings and handlers
of lines 36-68; the handlers close over the current render. -/
def freshRecognizer (s : State) : Recognizer :=
  { env := { isRecording := s.isRecording, isTranslating := s.isTranslating,
             sourceLanguage := s.sourceLanguage, targetLanguage := s.targetLanguage },
    continuous := true, interimResults := true, lang := none,
    active := false, stopRequested := false }

/-- The effect body (lines 33-69). -/
def runEffect (s : State) : State :=
  if s.supported then
    { s with
      recognizers := s.recognizers ++ [freshRecognizer s],
      recognitionRef := some s.recognizers.length }
  else s

/-- Re-render after a handler: when a dependency of the effect changed, run
the cleanup and then the effect. -/
def commit (old new : State) : State :=
  if new.sourceLanguage = old.sourceLanguage ∧ new.isRecording = old.isRecording then new
  else runEffect (cleanup new)

/-- The state after mounting the component; `supported` says whether
`window.SpeechRecognition || window.webkitSpeechRecognition` is truthy. -/
def init (supported : Bool) : State :=
  runEffect
    { supported := supported, isRecording := false, originalText := "",
      translatedText := JsVal.str "", sourceLanguage := "en-US", targetLanguage := "es-ES",
      isTranslating := false, recognitionRef := none, recordingTimeoutRef := none,
      translationTimeoutRef := none, recognizers := [], timers := [], nextTimer := 1,
      now := 0, requests := [], nextRequest := 0, log := [] }

/-! ## translateText (lines 84-127) -/

/-- The synchronous part of `translateText(text)` (lines 85-112), run in the
closure `env`: the guard, `setIsTranslating(true)` and the `fetch` call. -/
def translateText (env : Env) (text : String) (s : State) : State :=
  if jsTrim text = "" ∨ env.isTranslating = true then s
  else
    { s with
      isTranslating := true,
      requests := s.requests ++
        [{ id := s.nextRequest, text := text,
           sourceLang := languageMapping env.sourceLanguage,
           targetLang := languageMapping env.targetLanguage }],
      nextRequest := s.nextRequest + 1,
      log := s.log ++ [Effect.fetch s.nextRequest text] }

/-- Lines 116-120: the value passed to `setTranslatedText`, or the exception
thrown on the way. -/
def extractTranslation (data : JsVal) : JsResult JsVal :=
  (data.getProp "candidates").andThen fun cands =>
    if !cands.truthy then .throw "Invalid translation response"
    else cands.getIndex0.andThen fun c0 =>
      if !c0.truthy then .throw "Invalid translation response"
      else (c0.getProp "content").andThen fun content =>
        if !content.truthy then .throw "Invalid translation response"
        else (content.getProp "parts").andThen fun parts =>
          parts.getIndex0.andThen fun p0 =>
            p0.getProp "text"

/-- The value `translatedText` holds once the call has ended (lines 114-123). -/
def responseOutput : FetchOutcome → JsVal
  | .networkError => JsVal.str errorPlaceholder
  | .notJson => JsVal.str errorPlaceholder
  | .json data =>
    match extractTranslation data with
    | .ok v => v
    | .throw _ => JsVal.str errorPlaceholder

/-- The continuation of `translateText` after the awaits (lines 114-126) for
the outstanding call `q`. -/
def onResponse (q : Nat) (outcome : FetchOutcome) (s : State) : State :=
  { s with
    translatedText := responseOutput outcome,
    isTranslating := false,
    requests := s.requests.filter (fun r => r.id != q) }

/-! ## Recognizer handlers (lines 39-68) -/

/-- The transcript computed at lines 40-42. -/
def transcriptOf (results : List SpeechRecognitionResult) : String :=
  arrayJoin "" (results.map (fun result => result.first.transcript))

/-- The handler `onresult` (lines 39-52) of a recognizer with closure `env`. -/
def onresult (env : Env) (results : List SpeechRecognitionResult) (s : State) : State :=
  let transcript := transcriptOf results
  let s1 := { s with originalText := transcript }
  let s2 := clearIfSet s1.translationTimeoutRef s1
  { s2 with
    timers := s2.timers ++ [{ id := s2.nextTimer, due := s2.now + debounceMs, env := env, text := transcript }],
    translationTimeoutRef := some s2.nextTimer,
    nextTimer := s2.nextTimer + 1 }

/-- The handler `onend` (lines 54-60) of a recognizer with closure `env`. -/
def onend (env : Env) (s : State) : State :=
  if env.isRecording then
    match s.recognitionRef with
    | none => s
    | some k => (callStart k s).1
  else { s with isRecording := false }

/-- The handler `onerror` (lines 62-68). -/
def onerror (s : State) : State :=
  let s1 := { s with isRecording := false }
  match s1.recognitionRef with
  | some k => callStop k s1
  | none => s1

/-! ## Button handlers (lines 129-151) -/

/-- The function `startRecording` (lines 129-140). -/
def startRecording (s : State) : State :=
  match s.recognitionRef with
  | none => s
  | some k =>
    let s1 := { s with
      recognizers := updateAt (fun r => { r with lang := some s.sourceLanguage }) k s.recognizers }
    let started := callStart k s1
    if started.2 then { started.1 with isRecording := true }
    else { started.1 with isRecording := false }

/-- The function `stopRecording` (lines 142-151). -/
def stopRecording (s : State) : State :=
  match s.recognitionRef with
  | none => s
  | some k => { callStop k s with isRecording := false }

/-! ## Events -/

/-- A timer callback `() => translateText(transcript)` runs. -/
def fireTimer (s : State) (t : Timer) : State :=
  translateText t.env t.text { s with log := s.log ++ [Effect.translateText t.id t.text] }

/-- Passage of `d` milliseconds: the timers that came due run, in the order
they were registered. -/
def advance (d : Nat) (s : State) : State :=
  let due := s.timers.filter (fun t => decide (t.due ≤ s.now + d))
  let rest := s.timers.filter (fun t => !decide (t.due ≤ s.now + d))
  { due.foldl fireTimer { s with timers := rest } with now := s.now + d }

/-- Recognizer object `r` no longer counts as started once its `end` event fires. -/
def markEnded (r : Nat) (s : State) : State :=
  { s with
    recognizers :=
      updateAt (fun rec => { rec with active := false, stopRequested := false }) r s.recognizers }

/-- What can happen to the mounted component. -/
inductive Event where
  | click : Event
  | selectSource (code : String) : Event
  | selectTarget (code : String) : Event
  | result (r : Nat) (results : List SpeechRecognitionResult) : Event
  | ended (r : Nat) : Event
  | error (r : Nat) : Event
  | advance (ms : Nat) : Event
  | response (q : Nat) (outcome : FetchOutcome) : Event

/-- Recognizer object `r` exists and is started. -/
def isActive (s : State) (r : Nat) : Bool :=
  match s.recognizers[r]? with
  | some rec => rec.active
  | none => false

/-- The closure of recognizer object `r`. -/
def envOf (s : State) (r : Nat) : Env :=
  match s.recognizers[r]? with
  | some rec => rec.env
  | none => { isRecording := false, isTranslating := false, sourceLanguage := "", targetLanguage := "" }

/-- One event. The button calls `isRecording ? stopRecording : startRecording`
(line 201); the selectors offer the codes of `languageMapping`; a recognizer
delivers events only while it is active; a response arrives only for an
outstanding call. -/
def step (s : State) : Event → State
  | .click => commit s (if s.isRecording then stopRecording s else startRecording s)
  | .selectSource code =>
    if (languageMapping code).isSome then commit s { s with sourceLanguage := code } else s
  | .selectTarget code =>
    if (languageMapping code).isSome then { s with targetLanguage := code } else s
  | .result r results => if isActive s r then onresult (envOf s r) results s else s
  | .ended r => if isActive s r then commit s (onend (envOf s r) (markEnded r s)) else s
  | .error r => if isActive s r then commit s (onerror s) else s
  | .advance d => advance d s
  | .response q outcome =>
    if s.requests.any (fun r => r.id == q) then onResponse q outcome s else s

/-- A sequence of events. -/
def run (s : State) (events : List Event) : State :=
  events.foldl step s

/-- A state the mounted component can be in. -/
def Reachable (s : State) : Prop :=
  ∃ supported events, s = run (init supported) events

/-- The texts `translateText` was invoked with by timers, in order. -/
def translateCalls (log : List Effect) : List String :=
  log.filterMap (fun e => match e with
    | Effect.translateText _ text => some text
    | _ => none)

/-- The number of `start()` calls on recognizer objects. -/
def startCalls (log : List Effect) : Nat :=
  (log.filter (fun e => match e with
    | Effect.recStart _ => true
    | _ => false)).length

/-- The texts of the `fetch` calls issued, in order. -/
def fetchCalls (log : List Effect) : List String :=
  log.filterMap (fun e => match e with
    | Effect.fetch _ text => some text
    | _ => none)

/-- The event calls `startRecording`: the button is pressed while it shows Speak. -/
def callsStartRecording (s : State) : Event → Bool
  | .click => !s.isRecording
  | _ => false

/-- No event of the sequence, run from `s`, calls `startRecording`. -/
def noStartRecording : State → List Event → Bool
  | _, [] => true
  | s, e :: rest => !callsStartRecording s e && noStartRecording (step s e) rest

/-- A recognition result holding one final alternative. -/
def finalResult (text : String) : SpeechRecognitionResult :=
  { isFinal := true, first := { transcript := text }, others := [] }

/-- A recognition result holding one interim alternative. -/
def interimResult (text : String) : SpeechRecognitionResult :=
  { isFinal := false, first := { transcript := text }, others := [] }

/-- One later event of a burst: it arrives `gap` ms after the previous one. -/
structure BurstItem where
  gap : Nat
  recognizer : Nat
  results : List SpeechRecognitionResult

/-- The events of a burst of recognition results followed by `quiet` ms of silence. -/
def burstEvents (r0 : Nat) (first : List SpeechRecognitionResult) (rest : List BurstItem)
    (quiet : Nat) : List Event :=
  Event.result r0 first ::
    (rest.foldr (fun x acc => Event.advance x.gap :: Event.result x.recognizer x.results :: acc)
      [Event.advance quiet])

/-- The results carried by the last event of a burst. -/
def lastResults (first : List SpeechRecognitionResult) : List BurstItem → List SpeechRecognitionResult
  | [] => first
  | x :: rest => lastResults x.results rest

/-! ## Invariants of reachable states -/

/-- Every started recognizer object was created while `isRecording` was false;
`stop()` has been requested on it unless it is the current object. -/
def RecWeak (s : State) : Prop :=
  ∀ (i : Nat) (r : Recognizer), s.recognizers[i]? = some r → r.active = true →
    r.env.isRecording = false ∧ (r.stopRequested = true ∨ s.recognitionRef = some i)

/-- Every started recognizer object was created while `isRecording` was false
and has been asked to stop. -/
def RecStrict (s : State) : Prop :=
  ∀ (i : Nat) (r : Recognizer), s.recognizers[i]? = some r → r.active = true →
    r.env.isRecording = false ∧ r.stopRequested = true

/-- The object in `recognitionRef.current` is not started and its closure holds
the current value of `isRecording`. -/
def CurFresh (s : State) : Prop :=
  ∀ k, s.recognitionRef = some k →
    ∃ r, s.recognizers[k]? = some r ∧ r.active = false ∧ r.env.isRecording = s.isRecording

/-- Without speech recognition there is no recognizer object and recording
never turns on; with it, `recognitionRef.current` is set. -/
def SupOK (s : State) : Prop :=
  (s.supported = false → s.recognitionRef = none ∧ s.recognizers = [] ∧ s.isRecording = false) ∧
  (s.supported = true → s.recognitionRef ≠ none)

/-- At most one timer is pending, it is the one held in
`translationTimeoutRef.current`, and no pending timer has run. -/
def TimOK (s : State) : Prop :=
  s.recordingTimeoutRef = none ∧
  (∀ t ∈ s.timers, s.timers = [t] ∧ s.translationTimeoutRef = some t.id ∧ t.id ≠ 0 ∧
    t.id < s.nextTimer) ∧
  (∀ i text, Effect.translateText i text ∈ s.log → i < s.nextTimer ∧ ∀ t ∈ s.timers, t.id ≠ i) ∧
  0 < s.nextTimer

/-- The invariant of reachable states. -/
structure Inv (s : State) : Prop where
  recs : RecStrict s
  cur : CurFresh s
  sup : SupOK s
  tim : TimOK s

/-- Timer `i` is over: it is not pending, it has not run, and its handle is not
handed out again. -/
def TimerGone (i : Nat) (s : State) : Prop :=
  i < s.nextTimer ∧ (∀ t ∈ s.timers, t.id ≠ i) ∧ ∀ text, Effect.translateText i text ∉ s.log

/-- The entries an event may append to the log of `s`. -/
def Appended (s : State) (e : Event) (x : Effect) : Prop :=
  (∃ k, x = Effect.recStop k) ∨ (∃ q txt, x = Effect.fetch q txt) ∨
  (∃ t ∈ s.timers, x = Effect.translateText t.id t.text ∧ ∃ d, e = Event.advance d) ∨
  (∃ k, x = Effect.recStart k ∧ callsStartRecording s e = true)

/-! ## Sample inputs -/

/-- A service payload holding the translation `text`. -/
def goodPayload (text : String) : JsVal :=
  JsVal.obj [("candidates", JsVal.arr [JsVal.obj [("content",
    JsVal.obj [("parts", JsVal.arr [JsVal.obj [("text", JsVal.str text)]]), ("role", JsVal.str "model")])]])]

/-- A service payload whose first part has no `text` field. -/
def payloadWithoutText : JsVal :=
  JsVal.obj [("candidates", JsVal.arr [JsVal.obj [("content",
    JsVal.obj [("parts", JsVal.arr [JsVal.obj []]), ("role", JsVal.str "model")])]])]

/-- Two dispatches in a row: the transcript "a" settles and is dispatched as call 0,
then the transcript "ab" settles and is dispatched as call 1 while call 0 is
still outstanding. -/
def twoDispatches : List Event :=
  [Event.click, Event.result 0 [finalResult "a"], Event.advance 500,
   Event.result 0 [finalResult "a", finalResult "b"], Event.advance 500]

/-- A translation is outstanding when the recognizer handlers are re-installed,
and a later transcript "yo" settles. -/
def dispatchWhileTranslating : List Event :=
  [Event.click, Event.result 0 [finalResult "hi"], Event.advance 500, Event.click, Event.click,
   Event.result 2 [finalResult "yo"]]

/-- One dispatch: the transcript "a" settles and is dispatched as call 0, which
stays outstanding. -/
def oneDispatch : List Event :=
  [Event.click, Event.result 0 [finalResult "a"], Event.advance 500]

/-- The closure of the recognizer object created on mount. -/
def mountEnv : Env :=
  Env.mk false false "en-US" "es-ES"

/-! ## Helper lemmas -/

theorem jsTrim_of_blank (text : String) (h : isBlank text = true) : jsTrim text = "" := by
  unfold isBlank at h
  have h1 : text.data.dropWhile isJsWhiteSpace = [] := by
    rw [List.dropWhile_eq_nil_iff]
    intro x hx
    exact (List.all_eq_true.mp h) x hx
  simp [jsTrim, h1]

theorem dropWhile_append_singleton_ne_nil {α : Type} (p : α → Bool) (l : List α) (x : α)
    (hx : p x = false) : (l ++ [x]).dropWhile p ≠ [] := by
  intro h
  rw [List.dropWhile_eq_nil_iff] at h
  have := h x (by simp)
  simp [hx] at this

theorem jsTrim_of_not_blank (text : String) (h : isBlank text = false) : jsTrim text ≠ "" := by
  unfold isBlank at h
  have h1 : text.data.dropWhile isJsWhiteSpace ≠ [] := by
    intro h2
    rw [List.dropWhile_eq_nil_iff] at h2
    have : text.data.all isJsWhiteSpace = true := List.all_eq_true.mpr h2
    rw [this] at h
    cases h
  cases hd : text.data.dropWhile isJsWhiteSpace with
  | nil => exact absurd hd h1
  | cons x rest =>
    have hx : isJsWhiteSpace x = false := by
      have := List.head_dropWhile_not isJsWhiteSpace text.data (by rw [hd]; simp)
      simpa [hd] using this
    intro hj
    unfold jsTrim at hj
    rw [hd] at hj
    have h3 : ((x :: rest).reverse.dropWhile isJsWhiteSpace).reverse = [] := by
      have := congrArg String.data hj
      simpa using this
    rw [List.reverse_eq_nil_iff] at h3
    rw [List.reverse_cons] at h3
    exact dropWhile_append_singleton_ne_nil isJsWhiteSpace rest.reverse x hx h3

theorem foldl_append_string (acc : String) (xs : List String) :
    xs.foldl (fun a b => a ++ b) acc = acc ++ xs.foldl (fun a b => a ++ b) "" := by
  induction xs generalizing acc with
  | nil => simp
  | cons x xs ih =>
    simp only [List.foldl_cons]
    rw [ih (acc ++ x), ih ("" ++ x)]
    simp [String.append_assoc]

theorem arrayJoin_empty_sep (xs : List String) :
    arrayJoin "" xs = xs.foldl (fun a b => a ++ b) "" := by
  induction xs with
  | nil => rfl
  | cons x rest ih =>
    cases rest with
    | nil => simp [arrayJoin]
    | cons y ys =>
      rw [arrayJoin, ih, List.foldl_cons (l := y :: ys), foldl_append_string ("" ++ x)]
      simp

/-! ### Timer invariant -/

theorem TimOK_frame (s s1 : State)
    (h1 : s1.recordingTimeoutRef = s.recordingTimeoutRef)
    (h2 : s1.translationTimeoutRef = s.translationTimeoutRef)
    (h3 : s1.nextTimer = s.nextTimer)
    (h4 : s1.timers = s.timers ∨ s1.timers = [])
    (h5 : ∀ i text, Effect.translateText i text ∈ s1.log → Effect.translateText i text ∈ s.log)
    (h : TimOK s) : TimOK s1 := by
  obtain ⟨a, b, c, d⟩ := h
  refine ⟨by rw [h1]; exact a, ?_, ?_, by rw [h3]; exact d⟩
  · intro t ht
    rcases h4 with h4 | h4
    · rw [h4] at ht ⊢
      rw [h2, h3]
      exact b t ht
    · rw [h4] at ht
      cases ht
  · intro i text hi
    have := c i text (h5 i text hi)
    rw [h3]
    refine ⟨this.1, ?_⟩
    intro t ht
    rcases h4 with h4 | h4
    · rw [h4] at ht
      exact this.2 t ht
    · rw [h4] at ht
      cases ht

theorem clearIfSet_timers_of_TimOK (s : State) (h : TimOK s) :
    (clearIfSet s.translationTimeoutRef s).timers = [] := by
  obtain ⟨_, b, _, _⟩ := h
  cases ht : s.timers with
  | nil =>
    cases hr : s.translationTimeoutRef with
    | none => simp [clearIfSet, ht]
    | some id =>
      simp only [clearIfSet]
      split <;> simp [clearTimeout, ht]
  | cons t rest =>
    have := b t (by rw [ht]; simp)
    obtain ⟨e1, e2, e3, _⟩ := this
    rw [e2]
    simp [clearIfSet, e3, clearTimeout, e1]

theorem cleanup_timers (s : State) (h : TimOK s) : (cleanup s).timers = [] := by
  have hr : s.recordingTimeoutRef = none := h.1
  unfold cleanup
  cases hk : s.recognitionRef with
  | none =>
    simp only [hr, clearIfSet]
    exact clearIfSet_timers_of_TimOK s h
  | some k =>
    have h1 : TimOK (callStop k s) :=
      TimOK_frame s (callStop k s) rfl rfl rfl (Or.inl rfl) (by simp [callStop]) h
    have hr1 : (callStop k s).recordingTimeoutRef = none := hr
    simp only [hr1, clearIfSet]
    exact clearIfSet_timers_of_TimOK _ h1

/-! ### Lists -/

theorem getElem?_updateAt {α : Type} (f : α → α) (k i : Nat) (l : List α) :
    (updateAt f k l)[i]? = if k = i then (l[i]?).map f else l[i]? := by
  unfold updateAt
  cases h : l[k]? with
  | none =>
    by_cases hki : k = i
    · subst hki; simp [h]
    · simp [hki]
  | some x =>
    by_cases hki : k = i
    · subst hki
      have hlt : k < l.length := by
        rcases List.getElem?_eq_some.mp h with ⟨hlt, _⟩
        exact hlt
      simp [h, List.getElem?_set_self hlt]
    · simp [hki]

theorem length_updateAt {α : Type} (f : α → α) (k : Nat) (l : List α) :
    (updateAt f k l).length = l.length := by
  unfold updateAt
  cases l[k]? <;> simp

theorem updateAt_nil {α : Type} (f : α → α) (k : Nat) : updateAt f k ([] : List α) = [] := by
  simp [updateAt]

/-! ### Fields left alone by the primitives -/

@[simp]
theorem clearIfSet_supported (ref : Option Nat) (s : State) :
    (clearIfSet ref s).supported = s.supported := by
  cases ref with
  | none => rfl
  | some id => by_cases h : (id != 0) = true <;> simp [clearIfSet, h, clearTimeout]

@[simp]
theorem clearIfSet_isRecording (ref : Option Nat) (s : State) :
    (clearIfSet ref s).isRecording = s.isRecording := by
  cases ref with
  | none => rfl
  | some id => by_cases h : (id != 0) = true <;> simp [clearIfSet, h, clearTimeout]

@[simp]
theorem clearIfSet_originalText (ref : Option Nat) (s : State) :
    (clearIfSet ref s).originalText = s.originalText := by
  cases ref with
  | none => rfl
  | some id => by_cases h : (id != 0) = true <;> simp [clearIfSet, h, clearTimeout]

@[simp]
theorem clearIfSet_translatedText (ref : Option Nat) (s : State) :
    (clearIfSet ref s).translatedText = s.translatedText := by
  cases ref with
  | none => rfl
  | some id => by_cases h : (id != 0) = true <;> simp [clearIfSet, h, clearTimeout]

@[simp]
theorem clearIfSet_sourceLanguage (ref : Option Nat) (s : State) :
    (clearIfSet ref s).sourceLanguage = s.sourceLanguage := by
  cases ref with
  | none => rfl
  | some id => by_cases h : (id != 0) = true <;> simp [clearIfSet, h, clearTimeout]

@[simp]
theorem clearIfSet_targetLanguage (ref : Option Nat) (s : State) :
    (clearIfSet ref s).targetLanguage = s.targetLanguage := by
  cases ref with
  | none => rfl
  | some id => by_cases h : (id != 0) = true <;> simp [clearIfSet, h, clearTimeout]

@[simp]
theorem clearIfSet_isTranslating (ref : Option Nat) (s : State) :
    (clearIfSet ref s).isTranslating = s.isTranslating := by
  cases ref with
  | none => rfl
  | some id => by_cases h : (id != 0) = true <;> simp [clearIfSet, h, clearTimeout]

@[simp]
theorem clearIfSet_recognitionRef (ref : Option Nat) (s : State) :
    (clearIfSet ref s).recognitionRef = s.recognitionRef := by
  cases ref with
  | none => rfl
  | some id => by_cases h : (id != 0) = true <;> simp [clearIfSet, h, clearTimeout]

@[simp]
theorem clearIfSet_recordingTimeoutRef (ref : Option Nat) (s : State) :
    (clearIfSet ref s).recordingTimeoutRef = s.recordingTimeoutRef := by
  cases ref with
  | none => rfl
  | some id => by_cases h : (id != 0) = true <;> simp [clearIfSet, h, clearTimeout]

@[simp]
theorem clearIfSet_translationTimeoutRef (ref : Option Nat) (s : State) :
    (clearIfSet ref s).translationTimeoutRef = s.translationTimeoutRef := by
  cases ref with
  | none => rfl
  | some id => by_cases h : (id != 0) = true <;> simp [clearIfSet, h, clearTimeout]

@[simp]
theorem clearIfSet_recognizers (ref : Option Nat) (s : State) :
    (clearIfSet ref s).recognizers = s.recognizers := by
  cases ref with
  | none => rfl
  | some id => by_cases h : (id != 0) = true <;> simp [clearIfSet, h, clearTimeout]

@[simp]
theorem clearIfSet_nextTimer (ref : Option Nat) (s : State) :
    (clearIfSet ref s).nextTimer = s.nextTimer := by
  cases ref with
  | none => rfl
  | some id => by_cases h : (id != 0) = true <;> simp [clearIfSet, h, clearTimeout]

@[simp]
theorem clearIfSet_now (ref : Option Nat) (s : State) :
    (clearIfSet ref s).now = s.now := by
  cases ref with
  | none => rfl
  | some id => by_cases h : (id != 0) = true <;> simp [clearIfSet, h, clearTimeout]

@[simp]
theorem clearIfSet_requests (ref : Option Nat) (s : State) :
    (clearIfSet ref s).requests = s.requests := by
  cases ref with
  | none => rfl
  | some id => by_cases h : (id != 0) = true <;> simp [clearIfSet, h, clearTimeout]

@[simp]
theorem clearIfSet_nextRequest (ref : Option Nat) (s : State) :
    (clearIfSet ref s).nextRequest = s.nextRequest := by
  cases ref with
  | none => rfl
  | some id => by_cases h : (id != 0) = true <;> simp [clearIfSet, h, clearTimeout]

@[simp]
theorem clearIfSet_log (ref : Option Nat) (s : State) :
    (clearIfSet ref s).log = s.log := by
  cases ref with
  | none => rfl
  | some id => by_cases h : (id != 0) = true <;> simp [clearIfSet, h, clearTimeout]

@[simp]
theorem cleanup_supported (s : State) : (cleanup s).supported = s.supported := by
  unfold cleanup
  cases h : s.recognitionRef <;> simp [callStop, h]

@[simp]
theorem cleanup_isRecording (s : State) : (cleanup s).isRecording = s.isRecording := by
  unfold cleanup
  cases h : s.recognitionRef <;> simp [callStop, h]

@[simp]
theorem cleanup_originalText (s : State) : (cleanup s).originalText = s.originalText := by
  unfold cleanup
  cases h : s.recognitionRef <;> simp [callStop, h]

@[simp]
theorem cleanup_translatedText (s : State) : (cleanup s).translatedText = s.translatedText := by
  unfold cleanup
  cases h : s.recognitionRef <;> simp [callStop, h]

@[simp]
theorem cleanup_sourceLanguage (s : State) : (cleanup s).sourceLanguage = s.sourceLanguage := by
  unfold cleanup
  cases h : s.recognitionRef <;> simp [callStop, h]

@[simp]
theorem cleanup_targetLanguage (s : State) : (cleanup s).targetLanguage = s.targetLanguage := by
  unfold cleanup
  cases h : s.recognitionRef <;> simp [callStop, h]

@[simp]
theorem cleanup_isTranslating (s : State) : (cleanup s).isTranslating = s.isTranslating := by
  unfold cleanup
  cases h : s.recognitionRef <;> simp [callStop, h]

@[simp]
theorem cleanup_recognitionRef (s : State) : (cleanup s).recognitionRef = s.recognitionRef := by
  unfold cleanup
  cases h : s.recognitionRef <;> simp [callStop, h]

@[simp]
theorem cleanup_recordingTimeoutRef (s : State) : (cleanup s).recordingTimeoutRef = s.recordingTimeoutRef := by
  unfold cleanup
  cases h : s.recognitionRef <;> simp [callStop, h]

@[simp]
theorem cleanup_translationTimeoutRef (s : State) : (cleanup s).translationTimeoutRef = s.translationTimeoutRef := by
  unfold cleanup
  cases h : s.recognitionRef <;> simp [callStop, h]

@[simp]
theorem cleanup_nextTimer (s : State) : (cleanup s).nextTimer = s.nextTimer := by
  unfold cleanup
  cases h : s.recognitionRef <;> simp [callStop, h]

@[simp]
theorem cleanup_now (s : State) : (cleanup s).now = s.now := by
  unfold cleanup
  cases h : s.recognitionRef <;> simp [callStop, h]

@[simp]
theorem cleanup_requests (s : State) : (cleanup s).requests = s.requests := by
  unfold cleanup
  cases h : s.recognitionRef <;> simp [callStop, h]

@[simp]
theorem cleanup_nextRequest (s : State) : (cleanup s).nextRequest = s.nextRequest := by
  unfold cleanup
  cases h : s.recognitionRef <;> simp [callStop, h]

theorem cleanup_recognizers (s : State) :
    (cleanup s).recognizers = match s.recognitionRef with
      | some k => updateAt Recognizer.stop k s.recognizers
      | none => s.recognizers := by
  unfold cleanup
  cases h : s.recognitionRef <;> simp [callStop, h]

theorem cleanup_log (s : State) :
    (cleanup s).log = match s.recognitionRef with
      | some k => s.log ++ [Effect.recStop k]
      | none => s.log := by
  unfold cleanup
  cases h : s.recognitionRef <;> simp [callStop, h]

@[simp]
theorem runEffect_supported (s : State) : (runEffect s).supported = s.supported := by
  unfold runEffect
  split <;> rfl

@[simp]
theorem runEffect_isRecording (s : State) : (runEffect s).isRecording = s.isRecording := by
  unfold runEffect
  split <;> rfl

@[simp]
theorem runEffect_originalText (s : State) : (runEffect s).originalText = s.originalText := by
  unfold runEffect
  split <;> rfl

@[simp]
theorem runEffect_translatedText (s : State) : (runEffect s).translatedText = s.translatedText := by
  unfold runEffect
  split <;> rfl

@[simp]
theorem runEffect_sourceLanguage (s : State) : (runEffect s).sourceLanguage = s.sourceLanguage := by
  unfold runEffect
  split <;> rfl

@[simp]
theorem runEffect_targetLanguage (s : State) : (runEffect s).targetLanguage = s.targetLanguage := by
  unfold runEffect
  split <;> rfl

@[simp]
theorem runEffect_isTranslating (s : State) : (runEffect s).isTranslating = s.isTranslating := by
  unfold runEffect
  split <;> rfl

@[simp]
theorem runEffect_recordingTimeoutRef (s : State) : (runEffect s).recordingTimeoutRef = s.recordingTimeoutRef := by
  unfold runEffect
  split <;> rfl

@[simp]
theorem runEffect_translationTimeoutRef (s : State) : (runEffect s).translationTimeoutRef = s.translationTimeoutRef := by
  unfold runEffect
  split <;> rfl

@[simp]
theorem runEffect_nextTimer (s : State) : (runEffect s).nextTimer = s.nextTimer := by
  unfold runEffect
  split <;> rfl

@[simp]
theorem runEffect_now (s : State) : (runEffect s).now = s.now := by
  unfold runEffect
  split <;> rfl

@[simp]
theorem runEffect_requests (s : State) : (runEffect s).requests = s.requests := by
  unfold runEffect
  split <;> rfl

@[simp]
theorem runEffect_nextRequest (s : State) : (runEffect s).nextRequest = s.nextRequest := by
  unfold runEffect
  split <;> rfl

@[simp]
theorem runEffect_log (s : State) : (runEffect s).log = s.log := by
  unfold runEffect
  split <;> rfl

@[simp]
theorem runEffect_timers (s : State) : (runEffect s).timers = s.timers := by
  unfold runEffect
  split <;> rfl

@[simp]
theorem translateText_supported (env : Env) (text : String) (s : State) :
    (translateText env text s).supported = s.supported := by
  unfold translateText
  split <;> rfl

@[simp]
theorem translateText_isRecording (env : Env) (text : String) (s : State) :
    (translateText env text s).isRecording = s.isRecording := by
  unfold translateText
  split <;> rfl

@[simp]
theorem translateText_originalText (env : Env) (text : String) (s : State) :
    (translateText env text s).originalText = s.originalText := by
  unfold translateText
  split <;> rfl

@[simp]
theorem translateText_translatedText (env : Env) (text : String) (s : State) :
    (translateText env text s).translatedText = s.translatedText := by
  unfold translateText
  split <;> rfl

@[simp]
theorem translateText_sourceLanguage (env : Env) (text : String) (s : State) :
    (translateText env text s).sourceLanguage = s.sourceLanguage := by
  unfold translateText
  split <;> rfl

@[simp]
theorem translateText_targetLanguage (env : Env) (text : String) (s : State) :
    (translateText env text s).targetLanguage = s.targetLanguage := by
  unfold translateText
  split <;> rfl

@[simp]
theorem translateText_recognitionRef (env : Env) (text : String) (s : State) :
    (translateText env text s).recognitionRef = s.recognitionRef := by
  unfold translateText
  split <;> rfl

@[simp]
theorem translateText_recordingTimeoutRef (env : Env) (text : String) (s : State) :
    (translateText env text s).recordingTimeoutRef = s.recordingTimeoutRef := by
  unfold translateText
  split <;> rfl

@[simp]
theorem translateText_translationTimeoutRef (env : Env) (text : String) (s : State) :
    (translateText env text s).translationTimeoutRef = s.translationTimeoutRef := by
  unfold translateText
  split <;> rfl

@[simp]
theorem translateText_recognizers (env : Env) (text : String) (s : State) :
    (translateText env text s).recognizers = s.recognizers := by
  unfold translateText
  split <;> rfl

@[simp]
theorem translateText_nextTimer (env : Env) (text : String) (s : State) :
    (translateText env text s).nextTimer = s.nextTimer := by
  unfold translateText
  split <;> rfl

@[simp]
theorem translateText_now (env : Env) (text : String) (s : State) :
    (translateText env text s).now = s.now := by
  unfold translateText
  split <;> rfl

@[simp]
theorem translateText_timers (env : Env) (text : String) (s : State) :
    (translateText env text s).timers = s.timers := by
  unfold translateText
  split <;> rfl

/-! ### The effect re-establishes the invariant -/

theorem stop_active (r : Recognizer) : r.stop.active = r.active := by
  unfold Recognizer.stop
  split <;> simp_all

theorem stop_env (r : Recognizer) : r.stop.env = r.env := by
  unfold Recognizer.stop
  split <;> rfl

theorem stop_stopRequested (r : Recognizer) (h : r.active = true) :
    r.stop.stopRequested = true := by
  simp [Recognizer.stop, h]

theorem stop_of_inactive (r : Recognizer) (h : r.active = false) : r.stop = r := by
  simp [Recognizer.stop, h]

theorem TimOK_rerun (s : State) (h : TimOK s) : TimOK (runEffect (cleanup s)) := by
  refine TimOK_frame s _ (by simp) (by simp) (by simp)
    (Or.inr (by simp [cleanup_timers s h])) ?_ h
  intro i text hi
  rw [runEffect_log, cleanup_log] at hi
  cases hk : s.recognitionRef with
  | none => simpa [hk] using hi
  | some k => simpa [hk] using hi

theorem RecStrict_cleanup (s : State) (hrec : RecWeak s) : RecStrict (cleanup s) := by
  intro i r hi hact
  rw [cleanup_recognizers] at hi
  cases hk : s.recognitionRef with
  | none =>
    rw [hk] at hi
    obtain ⟨h1, h2⟩ := hrec i r hi hact
    refine ⟨h1, ?_⟩
    rcases h2 with h2 | h2
    · exact h2
    · rw [hk] at h2
      cases h2
  | some k =>
    rw [hk] at hi
    simp only at hi
    rw [getElem?_updateAt] at hi
    by_cases hki : k = i
    · rw [if_pos hki] at hi
      cases hold : s.recognizers[i]? with
      | none => simp [hold] at hi
      | some r0 =>
        rw [hold] at hi
        simp only [Option.map_some', Option.some.injEq] at hi
        subst hi
        rw [stop_active] at hact
        rw [stop_env]
        exact ⟨(hrec i r0 hold hact).1, stop_stopRequested r0 hact⟩
    · rw [if_neg hki] at hi
      obtain ⟨h1, h2⟩ := hrec i r hi hact
      refine ⟨h1, ?_⟩
      rcases h2 with h2 | h2
      · exact h2
      · rw [hk] at h2
        exact absurd (Option.some.inj h2) hki

theorem cleanup_recognizers_length (s : State) :
    (cleanup s).recognizers.length = s.recognizers.length := by
  rw [cleanup_recognizers]
  cases s.recognitionRef <;> simp [length_updateAt]

theorem Inv_rerun (s : State) (hrec : RecWeak s)
    (hsup : s.supported = false →
      s.recognitionRef = none ∧ s.recognizers = [] ∧ s.isRecording = false)
    (htim : TimOK s) : Inv (runEffect (cleanup s)) := by
  have htim1 := TimOK_rerun s htim
  have hstrict := RecStrict_cleanup s hrec
  cases hs : s.supported with
  | false =>
    obtain ⟨h1, h2, h3⟩ := hsup hs
    have e : runEffect (cleanup s) = cleanup s := by
      simp [runEffect, hs]
    rw [e] at htim1 ⊢
    have hr : (cleanup s).recognizers = [] := by
      rw [cleanup_recognizers, h1]
      exact h2
    refine ⟨hstrict, ?_, ?_, htim1⟩
    · intro k hk
      rw [cleanup_recognitionRef, h1] at hk
      cases hk
    · refine ⟨fun _ => ⟨by simp [h1], hr, by simp [h3]⟩, fun h => ?_⟩
      rw [cleanup_supported, hs] at h
      cases h
  | true =>
    have hr : (runEffect (cleanup s)).recognizers =
        (cleanup s).recognizers ++ [freshRecognizer (cleanup s)] := by
      simp [runEffect, hs]
    have hf : (runEffect (cleanup s)).recognitionRef = some (cleanup s).recognizers.length := by
      simp [runEffect, hs]
    refine ⟨?_, ?_, ?_, htim1⟩
    · intro i r hi hact
      rw [hr, List.getElem?_append] at hi
      by_cases hlt : i < (cleanup s).recognizers.length
      · rw [if_pos hlt] at hi
        exact hstrict i r hi hact
      · rw [if_neg hlt] at hi
        have : i - (cleanup s).recognizers.length = 0 ∨ 0 < i - (cleanup s).recognizers.length := by
          omega
        rcases this with h0 | h0
        · rw [h0] at hi
          simp at hi
          subst hi
          simp [freshRecognizer] at hact
        · obtain ⟨m, hm⟩ : ∃ m, i - (cleanup s).recognizers.length = m + 1 :=
            ⟨_, (Nat.succ_pred_eq_of_pos h0).symm⟩
          rw [hm] at hi
          simp at hi
    · intro j hj
      rw [hf] at hj
      cases hj
      refine ⟨freshRecognizer (cleanup s), ?_, rfl, ?_⟩
      · rw [hr, List.getElem?_append_right (Nat.le_refl _)]
        simp
      · simp [freshRecognizer]
    · refine ⟨fun h => ?_, fun _ => by rw [hf]; simp⟩
      rw [runEffect_supported, cleanup_supported, hs] at h
      cases h

theorem Inv_commit (old new : State) (hrec : RecWeak new)
    (hsup : new.supported = false →
      new.recognitionRef = none ∧ new.recognizers = [] ∧ new.isRecording = false)
    (htim : TimOK new)
    (hsame : new.isRecording = old.isRecording → new.sourceLanguage = old.sourceLanguage → Inv new) :
    Inv (commit old new) := by
  unfold commit
  split
  · rename_i h
    exact hsame h.2 h.1
  · exact Inv_rerun new hrec hsup htim

theorem Inv_init (supported : Bool) : Inv (init supported) := by
  have e : init supported = runEffect (cleanup
      { supported := supported, isRecording := false, originalText := "",
        translatedText := JsVal.str "", sourceLanguage := "en-US", targetLanguage := "es-ES",
        isTranslating := false, recognitionRef := none, recordingTimeoutRef := none,
        translationTimeoutRef := none, recognizers := [], timers := [], nextTimer := 1,
        now := 0, requests := [], nextRequest := 0, log := [] }) := rfl
  rw [e]
  refine Inv_rerun _ ?_ ?_ ?_
  · intro i r hi
    simp at hi
  · intro _
    exact ⟨rfl, rfl, rfl⟩
  · refine ⟨rfl, ?_, ?_, by simp⟩
    · intro t ht
      simp at ht
    · intro i text hi
      simp at hi

/-! ### Each event keeps the invariant -/

theorem updateAt_stop_inactive (l : List Recognizer) (k : Nat) (r : Recognizer)
    (h : l[k]? = some r) (hr : r.active = false) : updateAt Recognizer.stop k l = l := by
  apply List.ext_getElem?
  intro i
  rw [getElem?_updateAt]
  by_cases hki : k = i
  · subst hki
    simp [h, stop_of_inactive r hr]
  · simp [hki]

theorem isActive_iff (s : State) (r : Nat) :
    isActive s r = true ↔ ∃ rec, s.recognizers[r]? = some rec ∧ rec.active = true := by
  unfold isActive
  cases h : s.recognizers[r]? with
  | none => simp
  | some rec => simp

theorem envOf_eq (s : State) (r : Nat) (rec : Recognizer) (h : s.recognizers[r]? = some rec) :
    envOf s r = rec.env := by
  simp [envOf, h]

theorem Inv_of_same (s new : State) (h1 : new.recognizers = s.recognizers)
    (h2 : new.recognitionRef = s.recognitionRef) (h3 : new.supported = s.supported)
    (h4 : new.isRecording = s.isRecording) (htim : TimOK new) (h : Inv s) : Inv new := by
  obtain ⟨a, b, c, _⟩ := h
  refine ⟨?_, ?_, ?_, htim⟩
  · intro i r hi hact
    rw [h1] at hi
    exact a i r hi hact
  · intro k hk
    rw [h2] at hk
    rw [h1, h4]
    exact b k hk
  · unfold SupOK
    rw [h1, h2, h3, h4]
    exact c

theorem Inv_commit_same (s new : State) (h1 : new.recognizers = s.recognizers)
    (h2 : new.recognitionRef = s.recognitionRef) (h3 : new.supported = s.supported)
    (h4 : s.supported = false → new.isRecording = false)
    (htim : TimOK new) (h : Inv s) : Inv (commit s new) := by
  refine Inv_commit s new ?_ ?_ htim ?_
  · intro i r hi hact
    rw [h1] at hi
    exact ⟨(h.recs i r hi hact).1, Or.inl (h.recs i r hi hact).2⟩
  · intro hs
    rw [h3] at hs
    obtain ⟨a, b, _⟩ := h.sup.1 hs
    exact ⟨by rw [h2]; exact a, by rw [h1]; exact b, h4 hs⟩
  · intro e _
    exact Inv_of_same s new h1 h2 h3 e htim h

theorem callStop_recognizers_of_Inv (s : State) (k : Nat) (h : Inv s)
    (hk : s.recognitionRef = some k) : (callStop k s).recognizers = s.recognizers := by
  obtain ⟨r, hr, hina, _⟩ := h.cur k hk
  simp only [callStop]
  exact updateAt_stop_inactive _ k r hr hina

theorem Inv_stopRecording (s : State) (h : Inv s) : Inv (commit s (stopRecording s)) := by
  unfold stopRecording
  cases hk : s.recognitionRef with
  | none =>
    simp only
    refine Inv_commit_same s s rfl rfl rfl (fun hs => (h.sup.1 hs).2.2) h.tim h
  | some k =>
    simp only
    refine Inv_commit_same s _ ?_ ?_ rfl (fun _ => rfl) ?_ h
    · exact callStop_recognizers_of_Inv s k h hk
    · rfl
    · exact TimOK_frame s _ rfl rfl rfl (Or.inl rfl) (by simp [callStop]) h.tim

theorem Inv_onerror (s : State) (h : Inv s) : Inv (commit s (onerror s)) := by
  have hcases : s.recognitionRef = none ∨ ∃ k, s.recognitionRef = some k := by
    cases s.recognitionRef <;> simp
  rcases hcases with hk | ⟨k, hk⟩
  · have e : onerror s = { s with isRecording := false } := by
      simp [onerror, hk]
    rw [e]
    refine Inv_commit_same s _ rfl rfl rfl (fun _ => rfl) ?_ h
    exact TimOK_frame s _ rfl rfl rfl (Or.inl rfl) (by simp) h.tim
  · have e : onerror s = callStop k { s with isRecording := false } := by
      simp [onerror, hk]
    rw [e]
    refine Inv_commit_same s _ ?_ rfl rfl (fun _ => rfl) ?_ h
    · exact callStop_recognizers_of_Inv s k h hk
    · exact TimOK_frame s _ rfl rfl rfl (Or.inl rfl) (by simp [callStop]) h.tim

theorem Inv_selectSource (s : State) (code : String) (h : Inv s) :
    Inv (commit s { s with sourceLanguage := code }) := by
  refine Inv_commit_same s _ rfl rfl rfl (fun hs => (h.sup.1 hs).2.2) ?_ h
  exact TimOK_frame s _ rfl rfl rfl (Or.inl rfl) (by simp) h.tim

theorem updateAt_eq_set {α : Type} (f : α → α) (k : Nat) (l : List α) (x : α)
    (h : l[k]? = some x) : updateAt f k l = l.set k (f x) := by
  simp [updateAt, h]

theorem startRecording_eq (s : State) (k : Nat) (r : Recognizer)
    (hk : s.recognitionRef = some k) (hr : s.recognizers[k]? = some r)
    (hina : r.active = false) :
    startRecording s =
      { s with
        recognizers := s.recognizers.set k
          { r with lang := some s.sourceLanguage, active := true, stopRequested := false },
        log := s.log ++ [Effect.recStart k],
        isRecording := true } := by
  have hlt : k < s.recognizers.length := by
    rcases List.getElem?_eq_some.mp hr with ⟨hlt, _⟩
    exact hlt
  unfold startRecording
  simp only [hk]
  simp [callStart, updateAt_eq_set _ k s.recognizers r hr, List.getElem?_set_self hlt,
    Recognizer.start, hina, List.set_set]

theorem Inv_startRecording (s : State) (h : Inv s) (hrec : s.isRecording = false) :
    Inv (commit s (startRecording s)) := by
  have hcases : s.recognitionRef = none ∨ ∃ k, s.recognitionRef = some k := by
    cases s.recognitionRef <;> simp
  rcases hcases with hk | ⟨k, hk⟩
  · have e : startRecording s = s := by
      simp [startRecording, hk]
    rw [e]
    exact Inv_commit_same s s rfl rfl rfl (fun hs => (h.sup.1 hs).2.2) h.tim h
  · obtain ⟨r, hr, hina, henv⟩ := h.cur k hk
    rw [startRecording_eq s k r hk hr hina]
    have hsupp : s.supported = true := by
      cases hs : s.supported with
      | true => rfl
      | false =>
        have := (h.sup.1 hs).1
        rw [hk] at this
        cases this
    refine Inv_commit s _ ?_ ?_ ?_ ?_
    · intro i r1 hi hact
      simp only at hi
      rw [List.getElem?_set] at hi
      by_cases hki : k = i
      · rw [if_pos hki] at hi
        split at hi
        · simp only [Option.some.injEq] at hi
          subst hi
          refine ⟨?_, Or.inr ?_⟩
          · simp only
            rw [henv, hrec]
          · simp only
            rw [hk, hki]
        · cases hi
      · rw [if_neg hki] at hi
        exact ⟨(h.recs i r1 hi hact).1, Or.inl (h.recs i r1 hi hact).2⟩
    · intro hs
      simp only at hs
      rw [hsupp] at hs
      cases hs
    · exact TimOK_frame s _ rfl rfl rfl (Or.inl rfl) (by simp) h.tim
    · intro e _
      simp only at e
      rw [hrec] at e
      cases e

theorem Inv_ended (s : State) (r : Nat) (h : Inv s) (hr : isActive s r = true) :
    Inv (commit s (onend (envOf s r) (markEnded r s))) := by
  obtain ⟨rec, hrec, hact⟩ := (isActive_iff s r).mp hr
  have henv : (envOf s r).isRecording = false := by
    rw [envOf_eq s r rec hrec]
    exact (h.recs r rec hrec hact).1
  have e : onend (envOf s r) (markEnded r s) = { markEnded r s with isRecording := false } := by
    simp [onend, henv]
  rw [e]
  have hstrict : RecStrict { markEnded r s with isRecording := false } := by
    intro i r1 hi hact1
    simp only [markEnded] at hi
    rw [getElem?_updateAt] at hi
    by_cases hri : r = i
    · rw [if_pos hri] at hi
      cases hold : s.recognizers[i]? with
      | none => simp [hold] at hi
      | some r0 =>
        rw [hold] at hi
        simp only [Option.map_some', Option.some.injEq] at hi
        subst hi
        simp at hact1
    · rw [if_neg hri] at hi
      exact h.recs i r1 hi hact1
  have htim : TimOK { markEnded r s with isRecording := false } :=
    TimOK_frame s _ rfl rfl rfl (Or.inl rfl) (by simp [markEnded]) h.tim
  refine Inv_commit s _ ?_ ?_ htim ?_
  · intro i r1 hi hact1
    exact ⟨(hstrict i r1 hi hact1).1, Or.inl (hstrict i r1 hi hact1).2⟩
  · intro hs
    have := h.sup.1 hs
    rw [this.2.1] at hrec
    simp at hrec
  · intro e1 _
    simp only at e1
    refine ⟨hstrict, ?_, ?_, htim⟩
    · intro k hk
      obtain ⟨r0, hr0, hina, henv0⟩ := h.cur k hk
      have hne : r ≠ k := by
        intro hrk
        subst hrk
        rw [hrec] at hr0
        cases hr0
        rw [hact] at hina
        cases hina
      refine ⟨r0, ?_, hina, ?_⟩
      · simp only [markEnded]
        rw [getElem?_updateAt, if_neg hne]
        exact hr0
      · rw [henv0]
        exact e1.symm
    · have hsupp : s.supported = true := by
        cases hs : s.supported with
        | true => rfl
        | false =>
          have := (h.sup.1 hs).2.1
          rw [this] at hrec
          simp at hrec
      refine ⟨fun hs => ?_, fun _ => h.sup.2 hsupp⟩
      simp only [markEnded] at hs
      rw [hsupp] at hs
      cases hs

/-! ### Timers running -/

@[simp]
theorem fireTimer_supported (s : State) (t : Timer) : (fireTimer s t).supported = s.supported := by
  simp [fireTimer]

@[simp]
theorem fireTimer_isRecording (s : State) (t : Timer) : (fireTimer s t).isRecording = s.isRecording := by
  simp [fireTimer]

@[simp]
theorem fireTimer_originalText (s : State) (t : Timer) : (fireTimer s t).originalText = s.originalText := by
  simp [fireTimer]

@[simp]
theorem fireTimer_translatedText (s : State) (t : Timer) : (fireTimer s t).translatedText = s.translatedText := by
  simp [fireTimer]

@[simp]
theorem fireTimer_sourceLanguage (s : State) (t : Timer) : (fireTimer s t).sourceLanguage = s.sourceLanguage := by
  simp [fireTimer]

@[simp]
theorem fireTimer_targetLanguage (s : State) (t : Timer) : (fireTimer s t).targetLanguage = s.targetLanguage := by
  simp [fireTimer]

@[simp]
theorem fireTimer_recognitionRef (s : State) (t : Timer) : (fireTimer s t).recognitionRef = s.recognitionRef := by
  simp [fireTimer]

@[simp]
theorem fireTimer_recordingTimeoutRef (s : State) (t : Timer) : (fireTimer s t).recordingTimeoutRef = s.recordingTimeoutRef := by
  simp [fireTimer]

@[simp]
theorem fireTimer_translationTimeoutRef (s : State) (t : Timer) : (fireTimer s t).translationTimeoutRef = s.translationTimeoutRef := by
  simp [fireTimer]

@[simp]
theorem fireTimer_recognizers (s : State) (t : Timer) : (fireTimer s t).recognizers = s.recognizers := by
  simp [fireTimer]

@[simp]
theorem fireTimer_nextTimer (s : State) (t : Timer) : (fireTimer s t).nextTimer = s.nextTimer := by
  simp [fireTimer]

@[simp]
theorem fireTimer_now (s : State) (t : Timer) : (fireTimer s t).now = s.now := by
  simp [fireTimer]

@[simp]
theorem fireTimer_timers (s : State) (t : Timer) : (fireTimer s t).timers = s.timers := by
  simp [fireTimer]

@[simp]
theorem foldl_fireTimer_supported (l : List Timer) (s : State) :
    (l.foldl fireTimer s).supported = s.supported := by
  induction l generalizing s with
  | nil => rfl
  | cons t rest ih => simp [List.foldl_cons, ih]

@[simp]
theorem foldl_fireTimer_isRecording (l : List Timer) (s : State) :
    (l.foldl fireTimer s).isRecording = s.isRecording := by
  induction l generalizing s with
  | nil => rfl
  | cons t rest ih => simp [List.foldl_cons, ih]

@[simp]
theorem foldl_fireTimer_originalText (l : List Timer) (s : State) :
    (l.foldl fireTimer s).originalText = s.originalText := by
  induction l generalizing s with
  | nil => rfl
  | cons t rest ih => simp [List.foldl_cons, ih]

@[simp]
theorem foldl_fireTimer_translatedText (l : List Timer) (s : State) :
    (l.foldl fireTimer s).translatedText = s.translatedText := by
  induction l generalizing s with
  | nil => rfl
  | cons t rest ih => simp [List.foldl_cons, ih]

@[simp]
theorem foldl_fireTimer_sourceLanguage (l : List Timer) (s : State) :
    (l.foldl fireTimer s).sourceLanguage = s.sourceLanguage := by
  induction l generalizing s with
  | nil => rfl
  | cons t rest ih => simp [List.foldl_cons, ih]

@[simp]
theorem foldl_fireTimer_targetLanguage (l : List Timer) (s : State) :
    (l.foldl fireTimer s).targetLanguage = s.targetLanguage := by
  induction l generalizing s with
  | nil => rfl
  | cons t rest ih => simp [List.foldl_cons, ih]

@[simp]
theorem foldl_fireTimer_recognitionRef (l : List Timer) (s : State) :
    (l.foldl fireTimer s).recognitionRef = s.recognitionRef := by
  induction l generalizing s with
  | nil => rfl
  | cons t rest ih => simp [List.foldl_cons, ih]

@[simp]
theorem foldl_fireTimer_recordingTimeoutRef (l : List Timer) (s : State) :
    (l.foldl fireTimer s).recordingTimeoutRef = s.recordingTimeoutRef := by
  induction l generalizing s with
  | nil => rfl
  | cons t rest ih => simp [List.foldl_cons, ih]

@[simp]
theorem foldl_fireTimer_translationTimeoutRef (l : List Timer) (s : State) :
    (l.foldl fireTimer s).translationTimeoutRef = s.translationTimeoutRef := by
  induction l generalizing s with
  | nil => rfl
  | cons t rest ih => simp [List.foldl_cons, ih]

@[simp]
theorem foldl_fireTimer_recognizers (l : List Timer) (s : State) :
    (l.foldl fireTimer s).recognizers = s.recognizers := by
  induction l generalizing s with
  | nil => rfl
  | cons t rest ih => simp [List.foldl_cons, ih]

@[simp]
theorem foldl_fireTimer_nextTimer (l : List Timer) (s : State) :
    (l.foldl fireTimer s).nextTimer = s.nextTimer := by
  induction l generalizing s with
  | nil => rfl
  | cons t rest ih => simp [List.foldl_cons, ih]

@[simp]
theorem foldl_fireTimer_now (l : List Timer) (s : State) :
    (l.foldl fireTimer s).now = s.now := by
  induction l generalizing s with
  | nil => rfl
  | cons t rest ih => simp [List.foldl_cons, ih]

@[simp]
theorem foldl_fireTimer_timers (l : List Timer) (s : State) :
    (l.foldl fireTimer s).timers = s.timers := by
  induction l generalizing s with
  | nil => rfl
  | cons t rest ih => simp [List.foldl_cons, ih]

theorem translateText_log (env : Env) (text : String) (s : State) :
    ∃ extra, (translateText env text s).log = s.log ++ extra ∧
      ∀ e ∈ extra, ∃ q txt, e = Effect.fetch q txt := by
  unfold translateText
  split
  · exact ⟨[], by simp, by simp⟩
  · exact ⟨[Effect.fetch s.nextRequest text], rfl, by simp⟩

theorem fireTimer_log (s : State) (t : Timer) :
    ∃ extra, (fireTimer s t).log = s.log ++ Effect.translateText t.id t.text :: extra ∧
      ∀ e ∈ extra, ∃ q txt, e = Effect.fetch q txt := by
  obtain ⟨extra, h1, h2⟩ := translateText_log t.env t.text
    { s with log := s.log ++ [Effect.translateText t.id t.text] }
  refine ⟨extra, ?_, h2⟩
  unfold fireTimer
  rw [h1]
  simp

theorem translateCalls_append (a b : List Effect) :
    translateCalls (a ++ b) = translateCalls a ++ translateCalls b := by
  simp [translateCalls]

theorem startCalls_append (a b : List Effect) :
    startCalls (a ++ b) = startCalls a + startCalls b := by
  simp [startCalls]

theorem translateCalls_fetches (extra : List Effect)
    (h : ∀ e ∈ extra, ∃ q txt, e = Effect.fetch q txt) : translateCalls extra = [] := by
  induction extra with
  | nil => rfl
  | cons e rest ih =>
    obtain ⟨q, txt, he⟩ := h e (by simp)
    subst he
    have := ih (fun e he => h e (by simp [he]))
    simpa [translateCalls] using this

theorem startCalls_fetches (extra : List Effect)
    (h : ∀ e ∈ extra, ∃ q txt, e = Effect.fetch q txt) : startCalls extra = 0 := by
  induction extra with
  | nil => rfl
  | cons e rest ih =>
    obtain ⟨q, txt, he⟩ := h e (by simp)
    subst he
    have := ih (fun e he => h e (by simp [he]))
    simpa [startCalls] using this

theorem translateCalls_fireTimer (s : State) (t : Timer) :
    translateCalls (fireTimer s t).log = translateCalls s.log ++ [t.text] := by
  obtain ⟨extra, h1, h2⟩ := fireTimer_log s t
  rw [h1, translateCalls_append]
  have : translateCalls (Effect.translateText t.id t.text :: extra) = [t.text] := by
    have h3 := translateCalls_fetches extra h2
    simpa [translateCalls] using h3
  rw [this]

theorem startCalls_fireTimer (s : State) (t : Timer) :
    startCalls (fireTimer s t).log = startCalls s.log := by
  obtain ⟨extra, h1, h2⟩ := fireTimer_log s t
  rw [h1, startCalls_append]
  have : startCalls (Effect.translateText t.id t.text :: extra) = 0 := by
    have h3 := startCalls_fetches extra h2
    simpa [startCalls] using h3
  rw [this]
  rfl

theorem mem_log_fireTimer (s : State) (t : Timer) (i : Nat) (text : String)
    (h : Effect.translateText i text ∈ (fireTimer s t).log) :
    Effect.translateText i text ∈ s.log ∨ i = t.id := by
  obtain ⟨extra, h1, h2⟩ := fireTimer_log s t
  rw [h1] at h
  simp only [List.mem_append, List.mem_cons] at h
  rcases h with h | h | h
  · exact Or.inl h
  · right
    injection h
  · obtain ⟨q, txt, he⟩ := h2 _ h
    cases he

theorem startCalls_foldl_fireTimer (l : List Timer) (s : State) :
    startCalls (l.foldl fireTimer s).log = startCalls s.log := by
  induction l generalizing s with
  | nil => rfl
  | cons t rest ih => rw [List.foldl_cons, ih, startCalls_fireTimer]

theorem translateCalls_foldl_fireTimer (l : List Timer) (s : State) :
    translateCalls (l.foldl fireTimer s).log = translateCalls s.log ++ l.map (fun t => t.text) := by
  induction l generalizing s with
  | nil => simp
  | cons t rest ih => rw [List.foldl_cons, ih, translateCalls_fireTimer]; simp

theorem mem_log_foldl_fireTimer (l : List Timer) (s : State) (i : Nat) (text : String)
    (h : Effect.translateText i text ∈ (l.foldl fireTimer s).log) :
    Effect.translateText i text ∈ s.log ∨ ∃ t ∈ l, i = t.id := by
  induction l generalizing s with
  | nil => exact Or.inl h
  | cons t rest ih =>
    rw [List.foldl_cons] at h
    rcases ih _ h with h1 | ⟨t1, ht1, e⟩
    · rcases mem_log_fireTimer s t i text h1 with h2 | h2
      · exact Or.inl h2
      · exact Or.inr ⟨t, by simp, h2⟩
    · exact Or.inr ⟨t1, by simp [ht1], e⟩

theorem onresult_timers (env : Env) (results : List SpeechRecognitionResult) (s : State)
    (h : TimOK s) :
    (onresult env results s).timers =
      [{ id := s.nextTimer, due := s.now + debounceMs, env := env, text := transcriptOf results }] := by
  have hc := clearIfSet_timers_of_TimOK { s with originalText := transcriptOf results }
    (TimOK_frame s _ rfl rfl rfl (Or.inl rfl) (by simp) h)
  simp only [onresult]
  simp only at hc
  rw [hc]
  simp

theorem TimOK_onresult (env : Env) (results : List SpeechRecognitionResult) (s : State)
    (h : TimOK s) : TimOK (onresult env results s) := by
  have ht := onresult_timers env results s h
  obtain ⟨a, _, c, d⟩ := h
  refine ⟨?_, ?_, ?_, ?_⟩
  · simpa [onresult] using a
  · intro t htm
    rw [ht] at htm ⊢
    simp only [List.mem_singleton] at htm
    subst htm
    refine ⟨rfl, by simp [onresult], ?_, by simp [onresult]⟩
    simp only
    omega
  · intro i text hi
    have hi1 : Effect.translateText i text ∈ s.log := by simpa [onresult] using hi
    have := (c i text hi1).1
    refine ⟨by simp [onresult]; omega, ?_⟩
    intro t htm
    rw [ht] at htm
    simp only [List.mem_singleton] at htm
    subst htm
    simp only
    omega
  · simp [onresult]

theorem Inv_onresult (env : Env) (results : List SpeechRecognitionResult) (s : State)
    (h : Inv s) : Inv (onresult env results s) :=
  Inv_of_same s _ (by simp [onresult]) (by simp [onresult]) (by simp [onresult])
    (by simp [onresult]) (TimOK_onresult env results s h.tim) h

theorem advance_of_no_timer (d : Nat) (s : State) (h : s.timers = []) :
    advance d s = { s with now := s.now + d } := by
  cases s
  simp only at h
  subst h
  rfl

theorem advance_of_not_due (d : Nat) (s : State) (t : Timer) (h : s.timers = [t])
    (hd : ¬ t.due ≤ s.now + d) : advance d s = { s with now := s.now + d } := by
  cases s
  simp only at h hd
  subst h
  simp [advance, hd]

theorem advance_of_due (d : Nat) (s : State) (t : Timer) (h : s.timers = [t])
    (hd : t.due ≤ s.now + d) :
    advance d s = { fireTimer { s with timers := [] } t with now := s.now + d } := by
  cases s
  simp only at h hd
  subst h
  simp [advance, hd]

theorem TimOK_advance (d : Nat) (s : State) (h : TimOK s) : TimOK (advance d s) := by
  cases ht : s.timers with
  | nil =>
    rw [advance_of_no_timer d s ht]
    exact TimOK_frame s _ rfl rfl rfl (Or.inl rfl) (by simp) h
  | cons t rest =>
    have h1 := (h.2.1 t (by rw [ht]; simp))
    have hs : s.timers = [t] := h1.1
    by_cases hd : t.due ≤ s.now + d
    · rw [advance_of_due d s t hs hd]
      obtain ⟨a, _, c, e⟩ := h
      refine ⟨by simpa using a, ?_, ?_, by simpa using e⟩
      · intro t1 ht1
        simp at ht1
      · intro i text hi
        simp only [fireTimer_nextTimer, fireTimer_timers]
        refine ⟨?_, by simp⟩
        rcases mem_log_fireTimer _ t i text hi with h2 | h2
        · exact (c i text h2).1
        · rw [h2]
          exact h1.2.2.2
    · rw [advance_of_not_due d s t hs hd]
      exact TimOK_frame s _ rfl rfl rfl (Or.inl rfl) (by simp) h

theorem advance_recognizers (d : Nat) (s : State) : (advance d s).recognizers = s.recognizers := by
  simp [advance]

theorem advance_recognitionRef (d : Nat) (s : State) :
    (advance d s).recognitionRef = s.recognitionRef := by
  simp [advance]

theorem advance_supported (d : Nat) (s : State) : (advance d s).supported = s.supported := by
  simp [advance]

theorem advance_isRecording (d : Nat) (s : State) : (advance d s).isRecording = s.isRecording := by
  simp [advance]

theorem advance_nextTimer (d : Nat) (s : State) : (advance d s).nextTimer = s.nextTimer := by
  simp [advance]

theorem advance_now (d : Nat) (s : State) : (advance d s).now = s.now + d := by
  simp [advance]

theorem Inv_advance (d : Nat) (s : State) (h : Inv s) : Inv (advance d s) :=
  Inv_of_same s _ (advance_recognizers d s) (advance_recognitionRef d s) (advance_supported d s)
    (advance_isRecording d s) (TimOK_advance d s h.tim) h

theorem Inv_step (s : State) (e : Event) (h : Inv s) : Inv (step s e) := by
  cases e with
  | click =>
    simp only [step]
    cases hrec : s.isRecording with
    | true => simpa using Inv_stopRecording s h
    | false => simpa using Inv_startRecording s h hrec
  | selectSource code =>
    simp only [step]
    split
    · exact Inv_selectSource s code h
    · exact h
  | selectTarget code =>
    simp only [step]
    split
    · exact Inv_of_same s _ rfl rfl rfl rfl
        (TimOK_frame s _ rfl rfl rfl (Or.inl rfl) (by simp) h.tim) h
    · exact h
  | result r results =>
    simp only [step]
    split
    · exact Inv_onresult _ results s h
    · exact h
  | ended r =>
    simp only [step]
    split
    · rename_i hr
      exact Inv_ended s r h hr
    · exact h
  | error r =>
    simp only [step]
    split
    · exact Inv_onerror s h
    · exact h
  | advance d => exact Inv_advance d s h
  | response q outcome =>
    simp only [step]
    split
    · exact Inv_of_same s _ rfl rfl rfl rfl
        (TimOK_frame s _ rfl rfl rfl (Or.inl rfl) (by simp [onResponse]) h.tim) h
    · exact h

theorem Inv_run (events : List Event) (s : State) (h : Inv s) : Inv (run s events) := by
  induction events generalizing s with
  | nil => exact h
  | cons e rest ih => exact ih (step s e) (Inv_step s e h)

theorem Inv_of_Reachable (s : State) (h : Reachable s) : Inv s := by
  obtain ⟨supported, events, e⟩ := h
  rw [e]
  exact Inv_run events _ (Inv_init supported)

theorem run_append (s : State) (a b : List Event) : run s (a ++ b) = run (run s a) b := by
  simp [run, List.foldl_append]

theorem Reachable_run (s : State) (events : List Event) (h : Reachable s) :
    Reachable (run s events) := by
  obtain ⟨supported, evs, e⟩ := h
  exact ⟨supported, evs ++ events, by rw [run_append, e]⟩

/-! ### What one event appends to the log -/

theorem commit_log (old new : State) :
    ∃ extra, (commit old new).log = new.log ++ extra ∧ ∀ x ∈ extra, ∃ k, x = Effect.recStop k := by
  unfold commit
  split
  · exact ⟨[], by simp, by simp⟩
  · rw [runEffect_log, cleanup_log]
    cases new.recognitionRef with
    | none => exact ⟨[], by simp, by simp⟩
    | some k => exact ⟨[Effect.recStop k], rfl, by simp⟩

theorem commit_nextTimer (old new : State) : (commit old new).nextTimer = new.nextTimer := by
  unfold commit
  split <;> simp

theorem commit_isRecording (old new : State) : (commit old new).isRecording = new.isRecording := by
  unfold commit
  split <;> simp

theorem mem_clearIfSet_timers (ref : Option Nat) (s : State) (t : Timer)
    (h : t ∈ (clearIfSet ref s).timers) : t ∈ s.timers := by
  cases ref with
  | none => exact h
  | some id =>
    by_cases hid : (id != 0) = true
    · simp only [clearIfSet, hid, if_true, clearTimeout] at h
      exact (List.mem_filter.mp h).1
    · simpa [clearIfSet, hid] using h

theorem mem_cleanup_timers (s : State) (t : Timer) (h : t ∈ (cleanup s).timers) :
    t ∈ s.timers := by
  unfold cleanup at h
  have h1 := mem_clearIfSet_timers _ _ t h
  have h2 := mem_clearIfSet_timers _ _ t h1
  cases hk : s.recognitionRef with
  | none => simpa [hk] using h2
  | some k => simpa [hk, callStop] using h2

theorem mem_commit_timers (old new : State) (t : Timer) (h : t ∈ (commit old new).timers) :
    t ∈ new.timers := by
  unfold commit at h
  split at h
  · exact h
  · rw [runEffect_timers] at h
    exact mem_cleanup_timers new t h

theorem commit_append_log (s new : State) (e : Event) (extra : List Effect)
    (h1 : new.log = s.log ++ extra) (h2 : ∀ x ∈ extra, Appended s e x) :
    ∃ extra1, (commit s new).log = s.log ++ extra1 ∧ ∀ x ∈ extra1, Appended s e x := by
  obtain ⟨more, h3, h4⟩ := commit_log s new
  refine ⟨extra ++ more, by rw [h3, h1, List.append_assoc], ?_⟩
  intro x hx
  rcases List.mem_append.mp hx with hx | hx
  · exact h2 x hx
  · exact Or.inl (h4 x hx)

theorem step_log (s : State) (e : Event) (h : Inv s) :
    ∃ extra, (step s e).log = s.log ++ extra ∧ ∀ x ∈ extra, Appended s e x := by
  cases e with
  | click =>
    simp only [step]
    cases hrec : s.isRecording with
    | true =>
      simp only [if_true]
      have hcases : s.recognitionRef = none ∨ ∃ k, s.recognitionRef = some k := by
        cases s.recognitionRef <;> simp
      rcases hcases with hk | ⟨k, hk⟩
      · exact commit_append_log s _ _ [] (by simp [stopRecording, hk]) (by simp)
      · refine commit_append_log s _ _ [Effect.recStop k] (by simp [stopRecording, hk, callStop]) ?_
        intro x hx
        simp only [List.mem_singleton] at hx
        exact Or.inl ⟨k, hx⟩
    | false =>
      simp only [Bool.false_eq_true, if_false]
      have hcases : s.recognitionRef = none ∨ ∃ k, s.recognitionRef = some k := by
        cases s.recognitionRef <;> simp
      rcases hcases with hk | ⟨k, hk⟩
      · exact commit_append_log s _ _ [] (by simp [startRecording, hk]) (by simp)
      · obtain ⟨r, hr, hina, _⟩ := h.cur k hk
        rw [startRecording_eq s k r hk hr hina]
        refine commit_append_log s _ _ [Effect.recStart k] rfl ?_
        intro x hx
        simp only [List.mem_singleton] at hx
        exact Or.inr (Or.inr (Or.inr ⟨k, hx, by simp [callsStartRecording, hrec]⟩))
  | selectSource code =>
    simp only [step]
    split
    · exact commit_append_log s _ _ [] (by simp) (by simp)
    · exact ⟨[], by simp, by simp⟩
  | selectTarget code =>
    simp only [step]
    split <;> exact ⟨[], by simp, by simp⟩
  | result r results =>
    simp only [step]
    split
    · exact ⟨[], by simp [onresult], by simp⟩
    · exact ⟨[], by simp, by simp⟩
  | ended r =>
    simp only [step]
    split
    · rename_i hr
      obtain ⟨rec, hrec, hact⟩ := (isActive_iff s r).mp hr
      have henv : (envOf s r).isRecording = false := by
        rw [envOf_eq s r rec hrec]
        exact (h.recs r rec hrec hact).1
      have e : onend (envOf s r) (markEnded r s) = { markEnded r s with isRecording := false } := by
        simp [onend, henv]
      rw [e]
      exact commit_append_log s _ _ [] (by simp [markEnded]) (by simp)
    · exact ⟨[], by simp, by simp⟩
  | error r =>
    simp only [step]
    split
    · have hcases : s.recognitionRef = none ∨ ∃ k, s.recognitionRef = some k := by
        cases s.recognitionRef <;> simp
      rcases hcases with hk | ⟨k, hk⟩
      · exact commit_append_log s _ _ [] (by simp [onerror, hk]) (by simp)
      · refine commit_append_log s _ _ [Effect.recStop k] (by simp [onerror, hk, callStop]) ?_
        intro x hx
        simp only [List.mem_singleton] at hx
        exact Or.inl ⟨k, hx⟩
    · exact ⟨[], by simp, by simp⟩
  | advance d =>
    simp only [step]
    cases ht : s.timers with
    | nil =>
      rw [advance_of_no_timer d s ht]
      exact ⟨[], by simp, by simp⟩
    | cons t rest =>
      have hs : s.timers = [t] := (h.tim.2.1 t (by rw [ht]; simp)).1
      by_cases hd : t.due ≤ s.now + d
      · rw [advance_of_due d s t hs hd]
        obtain ⟨extra, h1, h2⟩ := fireTimer_log { s with timers := [] } t
        refine ⟨Effect.translateText t.id t.text :: extra, h1, ?_⟩
        intro x hx
        rcases List.mem_cons.mp hx with hx | hx
        · exact Or.inr (Or.inr (Or.inl ⟨t, by rw [hs]; simp, hx, d, rfl⟩))
        · exact Or.inr (Or.inl (h2 x hx))
      · rw [advance_of_not_due d s t hs hd]
        exact ⟨[], by simp, by simp⟩
  | response q outcome =>
    simp only [step]
    split <;> exact ⟨[], by simp [onResponse], by simp⟩

theorem callStart_timers (k : Nat) (s : State) : (callStart k s).1.timers = s.timers := by
  simp only [callStart]
  split
  · rfl
  · split <;> rfl

theorem callStart_nextTimer (k : Nat) (s : State) : (callStart k s).1.nextTimer = s.nextTimer := by
  simp only [callStart]
  split
  · rfl
  · split <;> rfl

theorem startRecording_timers (s : State) : (startRecording s).timers = s.timers := by
  unfold startRecording
  cases s.recognitionRef with
  | none => rfl
  | some k =>
    simp only
    split <;> simp [callStart_timers]

theorem startRecording_nextTimer (s : State) : (startRecording s).nextTimer = s.nextTimer := by
  unfold startRecording
  cases s.recognitionRef with
  | none => rfl
  | some k =>
    simp only
    split <;> simp [callStart_nextTimer]

theorem stopRecording_timers (s : State) : (stopRecording s).timers = s.timers := by
  unfold stopRecording
  cases s.recognitionRef <;> rfl

theorem stopRecording_nextTimer (s : State) : (stopRecording s).nextTimer = s.nextTimer := by
  unfold stopRecording
  cases s.recognitionRef <;> rfl

theorem onend_timers (env : Env) (s : State) : (onend env s).timers = s.timers := by
  unfold onend
  split
  · cases s.recognitionRef with
    | none => rfl
    | some k => exact callStart_timers k s
  · rfl

theorem onend_nextTimer (env : Env) (s : State) : (onend env s).nextTimer = s.nextTimer := by
  unfold onend
  split
  · cases s.recognitionRef with
    | none => rfl
    | some k => exact callStart_nextTimer k s
  · rfl

theorem onerror_timers (s : State) : (onerror s).timers = s.timers := by
  unfold onerror
  cases h : s.recognitionRef <;> simp [h, callStop]

theorem onerror_nextTimer (s : State) : (onerror s).nextTimer = s.nextTimer := by
  unfold onerror
  cases h : s.recognitionRef <;> simp [h, callStop]

theorem step_timers (s : State) (e : Event) :
    s.nextTimer ≤ (step s e).nextTimer ∧
      ∀ t ∈ (step s e).timers, t ∈ s.timers ∨ s.nextTimer ≤ t.id := by
  cases e with
  | click =>
    simp only [step]
    refine ⟨?_, fun t ht => Or.inl ?_⟩
    · rw [commit_nextTimer]
      split
      · rw [stopRecording_nextTimer]
      · rw [startRecording_nextTimer]
    · have := mem_commit_timers _ _ t ht
      revert this
      split
      · rw [stopRecording_timers]
        exact id
      · rw [startRecording_timers]
        exact id
  | selectSource code =>
    simp only [step]
    split
    · exact ⟨by rw [commit_nextTimer], fun t ht => Or.inl (by simpa using mem_commit_timers _ _ t ht)⟩
    · exact ⟨Nat.le_refl _, fun t ht => Or.inl ht⟩
  | selectTarget code =>
    simp only [step]
    split <;> exact ⟨Nat.le_refl _, fun t ht => Or.inl ht⟩
  | result r results =>
    simp only [step]
    split
    · refine ⟨by simp [onresult], fun t ht => ?_⟩
      simp only [onresult, List.mem_append, List.mem_singleton] at ht
      rcases ht with ht | ht
      · exact Or.inl (by simpa using mem_clearIfSet_timers _ _ t ht)
      · right
        rw [ht]
        simp
    · exact ⟨Nat.le_refl _, fun t ht => Or.inl ht⟩
  | ended r =>
    simp only [step]
    split
    · refine ⟨?_, fun t ht => Or.inl ?_⟩
      · rw [commit_nextTimer, onend_nextTimer]
        exact Nat.le_refl _
      · have := mem_commit_timers _ _ t ht
        rw [onend_timers] at this
        exact this
    · exact ⟨Nat.le_refl _, fun t ht => Or.inl ht⟩
  | error r =>
    simp only [step]
    split
    · refine ⟨?_, fun t ht => Or.inl ?_⟩
      · rw [commit_nextTimer, onerror_nextTimer]
      · have := mem_commit_timers _ _ t ht
        rw [onerror_timers] at this
        exact this
    · exact ⟨Nat.le_refl _, fun t ht => Or.inl ht⟩
  | advance d =>
    simp only [step]
    refine ⟨by simp [advance], fun t ht => Or.inl ?_⟩
    simp only [advance, foldl_fireTimer_timers] at ht
    exact (List.mem_filter.mp ht).1
  | response q outcome =>
    simp only [step]
    split <;> exact ⟨Nat.le_refl _, fun t ht => Or.inl ht⟩

theorem isActive_of_recognizers (s s1 : State) (h : s1.recognizers = s.recognizers) (r : Nat)
    (ha : isActive s r = true) : isActive s1 r = true := by
  simpa [isActive, h] using ha

theorem step_result_of_active (s : State) (r : Nat) (results : List SpeechRecognitionResult)
    (h : isActive s r = true) : step s (Event.result r results) = onresult (envOf s r) results s := by
  simp [step, h]

theorem run_cons (s : State) (e : Event) (rest : List Event) :
    run s (e :: rest) = run (step s e) rest := rfl

theorem burst_tail (rest : List BurstItem) (s : State) (t : Timer)
    (first : List SpeechRecognitionResult) (quiet : Nat)
    (htim : TimOK s) (ht : s.timers = [t]) (hdue : t.due = s.now + debounceMs)
    (htext : t.text = transcriptOf first)
    (hrest : ∀ x ∈ rest, isActive s x.recognizer = true ∧ x.gap < debounceMs)
    (hq : debounceMs ≤ quiet) :
    translateCalls (run s (rest.foldr
        (fun x acc => Event.advance x.gap :: Event.result x.recognizer x.results :: acc)
        [Event.advance quiet])).log =
      translateCalls s.log ++ [transcriptOf (lastResults first rest)] := by
  induction rest generalizing s t first with
  | nil =>
    have hd : t.due ≤ s.now + quiet := by omega
    show translateCalls (advance quiet s).log = _
    rw [advance_of_due quiet s t ht hd]
    simp only
    rw [translateCalls_fireTimer, htext]
    rfl
  | cons x xs ih =>
    obtain ⟨hx, hgap⟩ := hrest x (by simp)
    have hnd : ¬ t.due ≤ s.now + x.gap := by omega
    simp only [List.foldr_cons, run_cons, lastResults]
    have e1 : step s (Event.advance x.gap) = { s with now := s.now + x.gap } := by
      simp only [step]
      exact advance_of_not_due x.gap s t ht hnd
    rw [e1]
    have htim1 : TimOK { s with now := s.now + x.gap } :=
      TimOK_frame s _ rfl rfl rfl (Or.inl rfl) (by simp) htim
    have hact1 : isActive { s with now := s.now + x.gap } x.recognizer = true := hx
    rw [step_result_of_active _ _ _ hact1]
    have hlog : (onresult (envOf { s with now := s.now + x.gap } x.recognizer) x.results
        { s with now := s.now + x.gap }).log = s.log := by
      simp [onresult]
    have key := ih (onresult (envOf { s with now := s.now + x.gap } x.recognizer) x.results
        { s with now := s.now + x.gap }) _ x.results (TimOK_onresult _ _ _ htim1)
      (onresult_timers _ _ _ htim1) (by simp [onresult]) rfl
      (fun y hy => ⟨isActive_of_recognizers s _ (by simp [onresult]) _ (hrest y (by simp [hy])).1,
        (hrest y (by simp [hy])).2⟩)
    rw [hlog] at key
    exact key

/-- C1: a non-empty burst of recognition-result events, each less than 500 ms after
the previous one, followed by at least 500 ms of silence, makes the debounce
timer invoke `translateText` exactly once, with the transcript of the last
event of the burst. -/
theorem C1_burst_invokes_translateText_once (s : State) (hs : Reachable s) (r0 : Nat)
    (first : List SpeechRecognitionResult) (rest : List BurstItem) (quiet : Nat)
    (h0 : isActive s r0 = true)
    (hrest : ∀ x ∈ rest, isActive s x.recognizer = true ∧ x.gap < debounceMs)
    (hq : debounceMs ≤ quiet) :
    translateCalls (run s (burstEvents r0 first rest quiet)).log =
      translateCalls s.log ++ [transcriptOf (lastResults first rest)] := by
  have hinv := Inv_of_Reachable s hs
  unfold burstEvents
  rw [run_cons, step_result_of_active s r0 first h0]
  have hlog : (onresult (envOf s r0) first s).log = s.log := by
    simp [onresult]
  have key := burst_tail rest (onresult (envOf s r0) first s) _ first quiet
    (TimOK_onresult _ _ _ hinv.tim) (onresult_timers _ _ _ hinv.tim) (by simp [onresult]) rfl
    (fun y hy => ⟨isActive_of_recognizers s _ (by simp [onresult]) _ (hrest y hy).1,
      (hrest y hy).2⟩) hq
  rw [hlog] at key
  exact key

theorem C1_witness_hola :
    translateCalls (run (run (init true) [Event.click])
        (burstEvents 0 [finalResult "Hola"]
          [{ gap := 100, recognizer := 0, results := [finalResult "Hola mundo"] }] 500)).log =
      ["Hola mundo"] :=
  C1_burst_invokes_translateText_once (run (init true) [Event.click])
    ⟨true, [Event.click], rfl⟩ 0 [finalResult "Hola"]
    [{ gap := 100, recognizer := 0, results := [finalResult "Hola mundo"] }] 500
    (by decide) (by decide) (by decide)

/-! ### Runs -/

theorem startCalls_step (s : State) (e : Event) (h : Inv s)
    (hno : callsStartRecording s e = false) : startCalls (step s e).log = startCalls s.log := by
  obtain ⟨extra, h1, h2⟩ := step_log s e h
  rw [h1, startCalls_append]
  have : startCalls extra = 0 := by
    clear h1
    induction extra with
    | nil => rfl
    | cons x rest ih =>
      have hr := ih (fun y hy => h2 y (by simp [hy]))
      rcases h2 x (by simp) with ⟨k, hx⟩ | ⟨q, txt, hx⟩ | ⟨t, _, hx, _⟩ | ⟨k, _, hx⟩
      · subst hx
        simpa [startCalls] using hr
      · subst hx
        simpa [startCalls] using hr
      · subst hx
        simpa [startCalls] using hr
      · rw [hno] at hx
        cases hx
  rw [this]
  rfl

theorem startCalls_run (events : List Event) (s : State) (h : Inv s)
    (hno : noStartRecording s events = true) : startCalls (run s events).log = startCalls s.log := by
  induction events generalizing s with
  | nil => rfl
  | cons e rest ih =>
    simp only [noStartRecording, Bool.and_eq_true, Bool.not_eq_true'] at hno
    rw [run_cons, ih (step s e) (Inv_step s e h) hno.2, startCalls_step s e h hno.1]

theorem TimerGone_step (i : Nat) (s : State) (e : Event) (h : Inv s) (hg : TimerGone i s) :
    TimerGone i (step s e) := by
  obtain ⟨g1, g2, g3⟩ := hg
  obtain ⟨t1, t2⟩ := step_timers s e
  obtain ⟨extra, h1, h2⟩ := step_log s e h
  refine ⟨by omega, ?_, ?_⟩
  · intro t ht
    rcases t2 t ht with h3 | h3
    · exact g2 t h3
    · omega
  · intro text hmem
    rw [h1] at hmem
    rcases List.mem_append.mp hmem with h3 | h3
    · exact g3 text h3
    · rcases h2 _ h3 with ⟨k, hx⟩ | ⟨q, txt, hx⟩ | ⟨t, ht, hx, _⟩ | ⟨k, hx, _⟩
      · cases hx
      · cases hx
      · injection hx with hid _
        exact g2 t ht hid.symm
      · cases hx

theorem TimerGone_run (i : Nat) (events : List Event) (s : State) (h : Inv s)
    (hg : TimerGone i s) : TimerGone i (run s events) := by
  induction events generalizing s with
  | nil => exact hg
  | cons e rest ih => exact ih (step s e) (Inv_step s e h) (TimerGone_step i s e h hg)

theorem ended_of_active (s : State) (r : Nat) (h : Inv s) (hr : isActive s r = true) :
    step s (Event.ended r) = commit s { markEnded r s with isRecording := false } := by
  obtain ⟨rec, hrec, hact⟩ := (isActive_iff s r).mp hr
  have henv : (envOf s r).isRecording = false := by
    rw [envOf_eq s r rec hrec]
    exact (h.recs r rec hrec hact).1
  simp [step, hr, onend, henv]

/-! ### The claims -/

/-- C3: for a text that is empty or only whitespace, `translateText` issues no
translation request and leaves `isTranslating` and `translatedText` unchanged. -/
theorem C3_blank_text_dispatches_nothing (env : Env) (text : String) (s : State)
    (h : isBlank text = true) :
    (translateText env text s).requests = s.requests ∧
    fetchCalls (translateText env text s).log = fetchCalls s.log ∧
    (translateText env text s).isTranslating = s.isTranslating ∧
    (translateText env text s).translatedText = s.translatedText := by
  have e : translateText env text s = s := by
    simp [translateText, jsTrim_of_blank text h]
  rw [e]
  exact ⟨rfl, rfl, rfl, rfl⟩

theorem C3_witness_blank :
    (translateText (envOf (init true) 0) " \t\n" (init true)).requests = [] ∧
    fetchCalls (translateText (envOf (init true) 0) " \t\n" (init true)).log = [] ∧
    (translateText (envOf (init true) 0) " \t\n" (init true)).isTranslating = false ∧
    (translateText (envOf (init true) 0) " \t\n" (init true)).translatedText = JsVal.str "" :=
  C3_blank_text_dispatches_nothing (envOf (init true) 0) " \t\n" (init true) (by decide)

/-- C9: after a recognition event, `originalText` is the concatenation, in list
order and without separator, of the first alternative's transcript of every
result of the event; for an empty result list it is the empty string. -/
theorem C9_transcript_is_concatenation (s : State) (r : Nat)
    (results : List SpeechRecognitionResult) (h : isActive s r = true) :
    (step s (Event.result r results)).originalText =
      (results.map (fun result => result.first.transcript)).foldl (fun a b => a ++ b) "" ∧
    (step s (Event.result r [])).originalText = "" := by
  have e : ∀ rs, (step s (Event.result r rs)).originalText = transcriptOf rs := by
    intro rs
    rw [step_result_of_active s r rs h]
    simp [onresult]
  rw [e, e]
  exact ⟨arrayJoin_empty_sep _, rfl⟩

theorem C9_witness_two_results :
    (step (run (init true) [Event.click])
        (Event.result 0 [finalResult "Hola", interimResult " mundo"])).originalText =
      "Hola mundo" ∧
    (step (run (init true) [Event.click]) (Event.result 0 [])).originalText = "" :=
  C9_transcript_is_concatenation (run (init true) [Event.click]) 0
    [finalResult "Hola", interimResult " mundo"] (by decide)

/-- C4 (the code departs from the claim): after the button starts capture,
`isRecording` is true and recognizer object 0 is the running one; its `end`
event calls no `start()` and turns `isRecording` off. -/
theorem C4_end_event_does_not_restart :
    (run (init true) [Event.click]).isRecording = true ∧
    isActive (run (init true) [Event.click]) 0 = true ∧
    startCalls (run (init true) [Event.click, Event.ended 0]).log =
      startCalls (run (init true) [Event.click]).log ∧
    (run (init true) [Event.click, Event.ended 0]).isRecording = false ∧
    (run (init true) [Event.click, Event.ended 0]).recognizers.all (fun r => !r.active) = true := by
  decide

theorem click_while_recording (s : State) (hrec : s.isRecording = true) :
    step s Event.click = commit s (stopRecording s) := by
  simp [step, hrec]

/-- C5: once `stopRecording` has been called (by the button, which shows Stop
while `isRecording` is true), and as long as no later event calls
`startRecording`, an `end` event of a running recognizer calls `start()` on no
recognizer object and leaves `isRecording` false. -/
theorem C5_no_restart_after_stop (s : State) (hs : Reachable s) (hrec : s.isRecording = true)
    (events : List Event) (hno : noStartRecording (commit s (stopRecording s)) events = true)
    (r : Nat) (hr : isActive (run (commit s (stopRecording s)) events) r = true) :
    startCalls (step (run (commit s (stopRecording s)) events) (Event.ended r)).log =
      startCalls (commit s (stopRecording s)).log ∧
    (step (run (commit s (stopRecording s)) events) (Event.ended r)).isRecording = false := by
  have h1 : Inv (commit s (stopRecording s)) := by
    rw [← click_while_recording s hrec]
    exact Inv_step s _ (Inv_of_Reachable s hs)
  have h2 : Inv (run (commit s (stopRecording s)) events) := Inv_run events _ h1
  refine ⟨?_, ?_⟩
  · rw [startCalls_step _ (Event.ended r) h2 rfl, startCalls_run events _ h1 hno]
  · rw [ended_of_active _ r h2 hr, commit_isRecording]

theorem C5_witness_stop_then_end :
    startCalls (step (run (commit (run (init true) [Event.click])
          (stopRecording (run (init true) [Event.click])))
        [Event.result 0 [finalResult "hi"], Event.advance 500]) (Event.ended 0)).log =
      startCalls (commit (run (init true) [Event.click])
          (stopRecording (run (init true) [Event.click]))).log ∧
    (step (run (commit (run (init true) [Event.click])
          (stopRecording (run (init true) [Event.click])))
        [Event.result 0 [finalResult "hi"], Event.advance 500]) (Event.ended 0)).isRecording = false :=
  C5_no_restart_after_stop (run (init true) [Event.click]) ⟨true, [Event.click], rfl⟩ (by decide)
    [Event.result 0 [finalResult "hi"], Event.advance 500] (by decide) 0 (by decide)

/-- C6: when a debounce timer is pending and `stopRecording` is called (by the
button, which shows Stop while `isRecording` is true) before the timer fires,
that timer never invokes `translateText`, whatever happens afterwards. -/
theorem C6_stop_cancels_pending_timer (s : State) (hs : Reachable s)
    (hrec : s.isRecording = true) (t : Timer) (ht : t ∈ s.timers)
    (events : List Event) (text : String) :
    Effect.translateText t.id text ∉ (run (commit s (stopRecording s)) events).log := by
  have hinv := Inv_of_Reachable s hs
  have hclick := click_while_recording s hrec
  have h1 : Inv (commit s (stopRecording s)) := by
    rw [← hclick]
    exact Inv_step s _ hinv
  have hsupp : s.supported = true := by
    cases hsup : s.supported with
    | true => rfl
    | false =>
      have := (hinv.sup.1 hsup).2.2
      rw [hrec] at this
      cases this
  have hcases : ∃ k, s.recognitionRef = some k := by
    have := hinv.sup.2 hsupp
    cases hk : s.recognitionRef with
    | none => exact absurd hk this
    | some k => exact ⟨k, rfl⟩
  obtain ⟨k, hk⟩ := hcases
  have hstep : commit s (stopRecording s) =
      runEffect (cleanup { callStop k s with isRecording := false }) := by
    simp [hrec, stopRecording, hk, commit]
  have htimers : (commit s (stopRecording s)).timers = [] := by
    rw [hstep, runEffect_timers]
    exact cleanup_timers _ (TimOK_frame s _ rfl rfl rfl (Or.inl rfl) (by simp [callStop]) hinv.tim)
  have hgone : TimerGone t.id (commit s (stopRecording s)) := by
    obtain ⟨extra, e1, e2⟩ := step_log s Event.click hinv
    rw [hclick] at e1
    refine ⟨?_, ?_, ?_⟩
    · have := (step_timers s Event.click).1
      rw [hclick] at this
      have := (hinv.tim.2.1 t ht).2.2.2
      omega
    · intro t1 ht1
      rw [htimers] at ht1
      cases ht1
    · intro txt hmem
      rw [e1] at hmem
      rcases List.mem_append.mp hmem with h3 | h3
      · exact (hinv.tim.2.2.1 t.id txt h3).2 t ht rfl
      · rcases e2 _ h3 with ⟨k1, hx⟩ | ⟨q, txt1, hx⟩ | ⟨t1, _, _, d, hd⟩ | ⟨k1, hx, _⟩
        · cases hx
        · cases hx
        · cases hd
        · cases hx
  exact (TimerGone_run t.id events _ h1 hgone).2.2 text

theorem C6_witness_cancelled_timer :
    Effect.translateText 1 "hi" ∉
      (run (commit (run (init true) [Event.click, Event.result 0 [finalResult "hi"]])
          (stopRecording (run (init true) [Event.click, Event.result 0 [finalResult "hi"]])))
        [Event.advance 500, Event.ended 0]).log :=
  C6_stop_cancels_pending_timer (run (init true) [Event.click, Event.result 0 [finalResult "hi"]])
    ⟨true, [Event.click, Event.result 0 [finalResult "hi"]], rfl⟩ (by decide)
    (Timer.mk 1 500 (Env.mk false false "en-US" "es-ES") "hi") (by decide)
    [Event.advance 500, Event.ended 0] "hi"

theorem active_after_commit (old new : State) (r : Nat) (rec : Recognizer)
    (h : new.recognizers[r]? = some rec) (hact : rec.active = true) :
    ∃ rec1, (commit old new).recognizers[r]? = some rec1 ∧ rec1.active = true := by
  have hclean : ∃ rec1, (cleanup new).recognizers[r]? = some rec1 ∧ rec1.active = true := by
    rw [cleanup_recognizers]
    cases new.recognitionRef with
    | none => exact ⟨rec, h, hact⟩
    | some k =>
      simp only
      rw [getElem?_updateAt]
      by_cases hk : k = r
      · rw [if_pos hk, h]
        exact ⟨rec.stop, rfl, by rw [stop_active]; exact hact⟩
      · rw [if_neg hk]
        exact ⟨rec, h, hact⟩
  unfold commit
  split
  · exact ⟨rec, h, hact⟩
  · obtain ⟨rec1, h1, h2⟩ := hclean
    refine ⟨rec1, ?_, h2⟩
    unfold runEffect
    split
    · simp only
      have hlt : r < (cleanup new).recognizers.length := by
        rcases List.getElem?_eq_some.mp h1 with ⟨hlt, _⟩
        exact hlt
      rw [List.getElem?_append_left hlt]
      exact h1
    · exact h1

/-- C10: an `error` event of a running recognizer sets `isRecording` to false
and calls `stop()` on the object in `recognitionRef.current`; the recognizer
that reported the error is under a stop request; and no `start()` is called on
any recognizer object by the error or by the events that follow it (its `end`
event included) as long as none of them calls `startRecording`. -/
theorem C10_error_is_fatal (s : State) (hs : Reachable s) (r : Nat)
    (hr : isActive s r = true) (events : List Event)
    (hno : noStartRecording (step s (Event.error r)) events = true) :
    (step s (Event.error r)).isRecording = false ∧
    (∃ k rest, s.recognitionRef = some k ∧
      (step s (Event.error r)).log = s.log ++ Effect.recStop k :: rest) ∧
    (∃ rec, (step s (Event.error r)).recognizers[r]? = some rec ∧ rec.active = true ∧
      rec.stopRequested = true) ∧
    startCalls (run (step s (Event.error r)) events).log = startCalls s.log := by
  have hinv := Inv_of_Reachable s hs
  have h1 : Inv (step s (Event.error r)) := Inv_step s _ hinv
  obtain ⟨rec0, hrec0, hact0⟩ := (isActive_iff s r).mp hr
  have hsupp : s.supported = true := by
    cases hsup : s.supported with
    | true => rfl
    | false =>
      have := (hinv.sup.1 hsup).2.1
      rw [this] at hrec0
      simp at hrec0
  have hcases : ∃ k, s.recognitionRef = some k := by
    have := hinv.sup.2 hsupp
    cases hk : s.recognitionRef with
    | none => exact absurd hk this
    | some k => exact ⟨k, rfl⟩
  obtain ⟨k, hk⟩ := hcases
  have hstep : step s (Event.error r) = commit s (callStop k { s with isRecording := false }) := by
    simp [step, hr, onerror, hk]
  refine ⟨?_, ?_, ?_, ?_⟩
  · rw [hstep, commit_isRecording]
    rfl
  · obtain ⟨extra, e1, _⟩ := commit_log s (callStop k { s with isRecording := false })
    refine ⟨k, extra, hk, ?_⟩
    rw [hstep, e1]
    simp [callStop]
  · have hsame : (callStop k { s with isRecording := false }).recognizers[r]? = some rec0 := by
      have := callStop_recognizers_of_Inv s k hinv hk
      simp only [callStop] at this ⊢
      rw [this]
      exact hrec0
    obtain ⟨rec1, e1, e2⟩ := active_after_commit s _ r rec0 hsame hact0
    rw [← hstep] at e1
    exact ⟨rec1, e1, e2, (h1.recs r rec1 e1 e2).2⟩
  · rw [startCalls_run events _ h1 hno, startCalls_step s (Event.error r) hinv rfl]

theorem C10_witness_error_then_end :
    (step (run (init true) [Event.click]) (Event.error 0)).isRecording = false ∧
    (∃ k rest, (run (init true) [Event.click]).recognitionRef = some k ∧
      (step (run (init true) [Event.click]) (Event.error 0)).log =
        (run (init true) [Event.click]).log ++ Effect.recStop k :: rest) ∧
    (∃ rec, (step (run (init true) [Event.click]) (Event.error 0)).recognizers[0]? = some rec ∧
      rec.active = true ∧ rec.stopRequested = true) ∧
    startCalls (run (step (run (init true) [Event.click]) (Event.error 0))
        [Event.ended 0, Event.advance 1000]).log =
      startCalls (run (init true) [Event.click]).log :=
  C10_error_is_fatal (run (init true) [Event.click]) ⟨true, [Event.click], rfl⟩ 0 (by decide)
    [Event.ended 0, Event.advance 1000] (by decide)

/-- C2 (the code departs from the claim): calls 0 and 1 are dispatched in this
order for the non-blank texts "a" and "ab", call 1 while call 0 is still
outstanding and `isTranslating` is true; the response of call 0 then arrives
while call 1 has not responded, and its text is written to `translatedText`. -/
theorem C2_stale_result_is_written :
    isBlank "a" = false ∧ isBlank "ab" = false ∧
    (run (init true) oneDispatch).isTranslating = true ∧
    (run (init true) oneDispatch).requests.map (fun q => q.id) = [0] ∧
    fetchCalls (run (init true) twoDispatches).log = ["a", "ab"] ∧
    (run (init true) twoDispatches).requests.map (fun q => q.id) = [0, 1] ∧
    (run (init true) twoDispatches).translatedText = JsVal.str "" ∧
    (step (run (init true) twoDispatches)
      (Event.response 0 (FetchOutcome.json (goodPayload "uno")))).translatedText = JsVal.str "uno" ∧
    (step (run (init true) twoDispatches)
      (Event.response 0 (FetchOutcome.json (goodPayload "uno")))).requests.map (fun q => q.id) = [1] :=
  ⟨by decide, by decide, by decide, by decide, by decide, by decide, rfl, rfl, by decide⟩

/-- C7 (the code departs from the claim): for a payload whose first part has no
`text` field, no exception is thrown and `translatedText` is set to `undefined`,
not to the error placeholder. -/
theorem C7_missing_text_sets_undefined :
    extractTranslation payloadWithoutText = JsResult.ok JsVal.undefined ∧
    (run (init true) [Event.click, Event.result 0 [finalResult "hi"], Event.advance 500,
      Event.response 0 (FetchOutcome.json payloadWithoutText)]).translatedText = JsVal.undefined ∧
    JsVal.undefined ≠ JsVal.str errorPlaceholder :=
  ⟨rfl, rfl, fun h => JsVal.noConfusion h⟩

/-- C8 (as stated, refuted): call 0 is outstanding and `isTranslating` is true;
the timer invokes `translateText` with the non-blank text "yo" and no new
translation call is issued. -/
theorem C8_counterexample_dispatch_blocked :
    isBlank "yo" = false ∧
    (run (init true) dispatchWhileTranslating).isTranslating = true ∧
    (run (init true) dispatchWhileTranslating).requests.map (fun q => q.id) = [0] ∧
    translateCalls (step (run (init true) dispatchWhileTranslating) (Event.advance 500)).log =
      translateCalls (run (init true) dispatchWhileTranslating).log ++ ["yo"] ∧
    fetchCalls (step (run (init true) dispatchWhileTranslating) (Event.advance 500)).log =
      fetchCalls (run (init true) dispatchWhileTranslating).log ∧
    (step (run (init true) dispatchWhileTranslating) (Event.advance 500)).requests =
      (run (init true) dispatchWhileTranslating).requests := by
  decide

/-- C8 (amended): for a non-blank text, `translateText` issues a new translation
call exactly when the `isTranslating` value it reads (the one of its closure) is
false; when that value is true it issues no call and changes nothing. -/
theorem C8_dispatch_follows_isTranslating (env : Env) (text : String) (s : State)
    (h : isBlank text = false) :
    (translateText env text s).requests =
      (if env.isTranslating then s.requests
       else s.requests ++ [Request.mk s.nextRequest text (languageMapping env.sourceLanguage)
         (languageMapping env.targetLanguage)]) ∧
    fetchCalls (translateText env text s).log =
      (if env.isTranslating then fetchCalls s.log else fetchCalls s.log ++ [text]) ∧
    (translateText env text s).isTranslating = (if env.isTranslating then s.isTranslating else true) ∧
    (translateText env text s).translatedText = s.translatedText := by
  have hne := jsTrim_of_not_blank text h
  cases hT : env.isTranslating with
  | true => simp [translateText, hT]
  | false => simp [translateText, hT, hne, fetchCalls]

theorem C8_witness_second_dispatch :
    (translateText mountEnv "ab" (run (init true) oneDispatch)).requests =
      (if mountEnv.isTranslating then (run (init true) oneDispatch).requests
       else (run (init true) oneDispatch).requests ++
        [Request.mk (run (init true) oneDispatch).nextRequest "ab"
          (languageMapping mountEnv.sourceLanguage) (languageMapping mountEnv.targetLanguage)]) ∧
    fetchCalls (translateText mountEnv "ab" (run (init true) oneDispatch)).log =
      (if mountEnv.isTranslating then fetchCalls (run (init true) oneDispatch).log
       else fetchCalls (run (init true) oneDispatch).log ++ ["ab"]) ∧
    (translateText mountEnv "ab" (run (init true) oneDispatch)).isTranslating =
      (if mountEnv.isTranslating then (run (init true) oneDispatch).isTranslating else true) ∧
    (translateText mountEnv "ab" (run (init true) oneDispatch)).translatedText =
      (run (init true) oneDispatch).translatedText :=
  C8_dispatch_follows_isTranslating mountEnv "ab" (run (init true) oneDispatch) (by decide)

end TranslationApp
